import Mathlib

set_option linter.unusedVariables false

/-! Shallow embedding of the extraction engine of File Extractor Pro
(src/processor.py, src/services/extractor_service.py,
src/services/extension_utils.py, src/constants.py), with theorems that
check the specification claims against the embedded code. Machine strings
are Lean String values manipulated character-wise; file contents and the
output artifact are List Char; bounded queues are lists with a capacity;
the worker runs sequentially, with the shared cancellation event modelled
as a predicate over a running count of cancellation polls. -/

/-! Part A: character and string helpers embedding the Python str and
os.path primitives the engine uses. -/

/-- Lower-case a string character by character (embeds str.lower for the
tokens the engine manipulates). -/
def strLower (s : String) : String := String.mk (s.toList.map Char.toLower)

/-- Strip leading and trailing whitespace (embeds str.strip). -/
def pyStrip (s : String) : String :=
  String.mk
    ((s.toList.dropWhile Char.isWhitespace).reverse.dropWhile Char.isWhitespace).reverse

/-- Prefix test on character lists. -/
def startsWithChars : List Char → List Char → Bool
  | [], _ => true
  | _ :: _, [] => false
  | p :: ps, c :: cs => p == c && startsWithChars ps cs

/-- Embeds str.startswith. -/
def strStartsWith (s pre : String) : Bool := startsWithChars pre.toList s.toList

/-- Drop the first character of a string (embeds the slice token[1:]). -/
def strDrop1 (s : String) : String :=
  String.mk (s.toList.drop 1)

/-- Base name of a path: the component after the last slash. -/
def basenameChars (cs : List Char) : List Char :=
  (cs.reverse.takeWhile (fun c => c != '/')).reverse

/-- Extension of a base name, mirroring os.path.splitext: the suffix from
the last dot, provided some character before that dot is not itself a dot
(leading dots are part of the root, so dotfiles have no extension). -/
def extChars (base : List Char) : List Char :=
  if (base.dropWhile (fun c => c == '.')).contains '.' then
    '.' :: (base.reverse.takeWhile (fun c => c != '.')).reverse
  else []

/-- Embeds os.path.splitext(path)[1]. -/
def splitext_ext (path : String) : String := String.mk (extChars (basenameChars path.toList))

/-- Embeds os.path.join for the slash-free entry names produced by the
directory walk. -/
def joinPath (root name : String) : String :=
  if root == "" then name
  else if root.toList.getLast? == some '/' then root ++ name
  else root ++ "/" ++ name

/-! Part B: status levels, message payloads and the bounded status
channel (queue.Queue with maxsize). -/

/-- Level string of ordinary informational messages. -/
def lvl_info : String := "info"

/-- Level string of warning messages. -/
def lvl_warning : String := "warning"

/-- Level string of error messages. -/
def lvl_error : String := "error"

/-- Level string of the terminal state message. -/
def lvl_state : String := "state"

/-- Payload of a status message: free text, or the terminal state
dictionary (string keys to string values, as in the source annotation
dict[str, str]). -/
inductive Payload where
  | text (s : String)
  | stateKV (kv : List (String × String))
deriving DecidableEq

/-- One buffered status message: a (level, payload) pair. -/
structure QMsg where
  level : String
  payload : Payload
deriving DecidableEq

/-- The bounded FIFO status channel: queue.Queue(maxsize = cap) holding
buf front to back. -/
structure Chan where
  cap : Nat
  buf : List QMsg
deriving DecidableEq

/-- Whether a put would raise Full: Queue treats maxsize 0 or less as
unbounded, otherwise a queue holding cap or more items is full. -/
def Chan.isFull (c : Chan) : Bool := 0 < c.cap && c.cap ≤ c.buf.length

/-- Embeds Queue.put_nowait: appends at the back or raises Full (none). -/
def put_nowait (c : Chan) (m : QMsg) : Option Chan :=
  if c.isFull then none else some { c with buf := c.buf ++ [m] }

/-- Embeds Queue.get_nowait: pops the front or raises Empty (none). -/
def get_nowait (c : Chan) : Option (QMsg × Chan) :=
  match c.buf with
  | [] => none
  | m :: rest => some (m, { c with buf := rest })

/-- Embeds a blocking Queue.put as seen from the channel state: when the
queue is full the call completes only after the consumer has dequeued the
front element, so the net effect on the buffer is dropping the front and
appending the message; otherwise it is a plain append. -/
def put_blocking (c : Chan) (m : QMsg) : Chan :=
  if c.isFull then { c with buf := c.buf.tail ++ [m] } else { c with buf := c.buf ++ [m] }

/-! Part C: services.extension_utils.normalise_extension_tokens. -/

/-- Embeds dict.setdefault on the insertion-ordered key list of
ordered_unique (values are all None in the source). -/
def setdefault (l : List String) (k : String) : List String :=
  if l.contains k then l else l ++ [k]

/-- The wildcard extension tokens accepted verbatim. -/
def wildcard_tokens : List String := ["*", "*.*"]

/-- Loop body of normalise_extension_tokens over the raw tokens, with the
insertion-ordered key list of ordered_unique as accumulator. -/
def normalise_tokens_loop (raw : List String) (ordered_unique : List String) : List String :=
  match raw with
  | [] => ordered_unique
  | extension :: rest =>
    let token := strLower (pyStrip extension)
    if token == "" then normalise_tokens_loop rest ordered_unique
    else if wildcard_tokens.contains token then
      normalise_tokens_loop rest (setdefault ordered_unique token)
    else
      let token := if strStartsWith token ("*.") then strDrop1 token else token
      let token := if strStartsWith token (".") then token else "." ++ token
      normalise_tokens_loop rest (setdefault ordered_unique token)

/-- Embeds services.extension_utils.normalise_extension_tokens. -/
def normalise_extension_tokens (raw : List String) : List String :=
  normalise_tokens_loop raw []

/-- Specification-side restatement of the per-token rule of the claim:
trim and lower-case, drop empties, pass wildcards through, strip the star
of a star-dot prefix, ensure a leading dot. Used to compare the
implementation against the specification sentence. -/
def normalise_one_token (extension : String) : Option String :=
  let token := strLower (pyStrip extension)
  if token == "" then none
  else if wildcard_tokens.contains token then some token
  else
    let stripped := if strStartsWith token ("*.") then strDrop1 token else token
    some (if strStartsWith stripped (".") then stripped else "." ++ stripped)

/-- Specification-side order-preserving deduplication. -/
def dedup_keep_first (l : List String) : List String := l.foldl setdefault []

/-! Part D: the FileProcessor state and its status-message machinery
(src/processor.py). -/

/-- Per-extension statistics row of extraction_summary. -/
structure ExtStat where
  count : Nat
  totalSize : Nat
deriving DecidableEq

/-- Value stored in the extraction_summary dict: a per-extension
statistics row or a per-file record. The processed_time timestamp is
wall-clock data and is not modelled. -/
inductive SumVal where
  | extStat (s : ExtStat)
  | fileRec (fsize : Nat) (fhash : String) (fext : String)
deriving DecidableEq

/-- Lookup in an insertion-ordered dict modelled as an association list. -/
def lookupKV {α : Type} (d : List (String × α)) (k : String) : Option α :=
  match d with
  | [] => none
  | (k0, v) :: rest => if k0 == k then some v else lookupKV rest k

/-- Assignment d[k] = v on an insertion-ordered dict: replaces in place or
appends at the end, as a Python dict does. -/
def setKV {α : Type} (d : List (String × α)) (k : String) (v : α) : List (String × α) :=
  match d with
  | [] => [(k, v)]
  | (k0, v0) :: rest => if k0 == k then (k0, v) :: rest else (k0, v0) :: setKV rest k v

/-- Instrumentation snapshot stored in _last_run_metrics. The
elapsed_seconds, files_per_second, max_file_size_megabytes and
completed_at entries are wall-clock or floating-point data and are not
modelled; the integer and boolean entries keep their source keys. -/
structure RunMetrics where
  processed_files : Nat
  max_queue_depth : Nat
  total_files : Int
  dropped_messages : Nat
  skipped_files : Nat
  total_files_known : Bool
  large_file_warnings : Nat
  max_file_size_bytes : Nat
  total_files_estimated : Option Nat
deriving DecidableEq

/-- State of a FileProcessor instance. -/
structure ProcSt where
  chan : Chan
  summary : List (String × SumVal)
  processedFiles : List String
  maxFileSizeBytes : Option Nat
  maxQueueDepth : Nat
  lastRunMetrics : Option RunMetrics
  droppedMessages : Nat
  skippedFiles : Nat
  largeFileWarnings : Nat
deriving DecidableEq

/-- Increment the dropped-message counter. -/
def addDropped (st : ProcSt) : ProcSt :=
  { st with droppedMessages := st.droppedMessages + 1 }

/-- Embeds _record_queue_depth: track the maximum observed queue depth. -/
def record_queue_depth (st : ProcSt) : ProcSt :=
  if st.maxQueueDepth < st.chan.buf.length then
    { st with maxQueueDepth := st.chan.buf.length }
  else st

/-- Restore loop shared by both restoration paths of drain_for_capacity:
put each message back with put_nowait, recording queue depth after each
success; a Full during restoration increments the dropped counter and
aborts with False. -/
def restoreMsgs (st : ProcSt) (msgs : List QMsg) : Bool × ProcSt :=
  match msgs with
  | [] => (true, st)
  | m :: rest =>
    match put_nowait st.chan m with
    | none => (false, addDropped st)
    | some c => restoreMsgs (record_queue_depth { st with chan := c }) rest

/-- Embeds drain_for_capacity of _enqueue_message: drain the whole queue,
drop the oldest non-state entry when one exists (else, when state
eviction is allowed, the oldest entry overall), and reinsert the rest in
order. Returns whether a slot was freed. -/
def drain_for_capacity (st0 : ProcSt) (allow_state_eviction : Bool) : Bool × ProcSt :=
  let drained := st0.chan.buf
  let st := { st0 with chan := { st0.chan with buf := [] } }
  if drained.isEmpty then (false, st)
  else
    match drained.findIdx? (fun m => m.level != lvl_state) with
    | none =>
      if !allow_state_eviction then
        let r := restoreMsgs st drained
        (false, r.2)
      else
        let st := addDropped st
        let r := restoreMsgs st (drained.eraseIdx 0)
        (r.1, r.2)
    | some i =>
      let st := addDropped st
      let r := restoreMsgs st (drained.eraseIdx i)
      (r.1, r.2)

/-- The while-True retry loop of _enqueue_message, with a fuel argument
that dominates the number of iterations the loop can take from any
channel state (each failing iteration either frees a slot or exits at the
second unsuccessful drain). -/
def enqueue_loop (st : ProcSt) (level : String) (payload : Payload)
    (attempts : Nat) : Nat → ProcSt
  | 0 => st
  | fuel + 1 =>
    match put_nowait st.chan ⟨level, payload⟩ with
    | some c => record_queue_depth { st with chan := c }
    | none =>
      let attempts := attempts + 1
      let allow_state_eviction := level == lvl_state
      let r := drain_for_capacity st allow_state_eviction
      if !r.1 && attempts > 1 then addDropped r.2
      else enqueue_loop r.2 level payload attempts fuel

/-- Embeds _enqueue_message: non-blocking publish with the
backpressure-eviction policy. -/
def enqueue_message (st : ProcSt) (level : String) (payload : Payload) : ProcSt :=
  enqueue_loop st level payload 0 (st.chan.buf.length + 3)

/-- Embeds _update_extraction_summary: bump the per-extension statistics
row and store the per-file record. When the value sitting under the
extension key is not a statistics row, the increment raises a KeyError
that the internal handler logs, leaving the summary unchanged. -/
def update_extraction_summary (st : ProcSt) (file_ext file_path : String)
    (file_size : Nat) (file_hash : String) : ProcSt :=
  let base :=
    match lookupKV st.summary file_ext with
    | none => setKV st.summary file_ext (SumVal.extStat ⟨0, 0⟩)
    | some _ => st.summary
  match lookupKV base file_ext with
  | some (SumVal.extStat s) =>
    let withExt := setKV base file_ext (SumVal.extStat ⟨s.count + 1, s.totalSize + file_size⟩)
    { st with summary := setKV withExt file_path (SumVal.fileRec file_size file_hash file_ext) }
  | _ => st

/-! Part E: the ExtractorService coordinator
(src/services/extractor_service.py). -/

/-- Immutable extraction request parameters. -/
structure ExtractionRequest where
  folder_path : String
  mode : String
  include_hidden : Bool
  extensions : List String
  exclude_files : List String
  exclude_folders : List String
  output_file_name : String
deriving DecidableEq

/-- Coordinator state: the status channel, the worker thread reference
(some b records a thread object whose is_alive() returns b), a count of
threads spawned so far, and the shared cancellation event. -/
structure SvcSt where
  chan : Chan
  thread : Option Bool
  spawnCount : Nat
  cancelEventSet : Bool
deriving DecidableEq

/-- Embeds is_running: a thread reference exists and it is alive. -/
def SvcSt.is_running (s : SvcSt) : Bool :=
  match s.thread with
  | some alive => alive
  | none => false

/-- Errors raised by start_extraction: ValueError for invalid arguments,
RuntimeError (busy) when a run is already active. -/
inductive StartError where
  | valueErr (msg : String)
  | busy
deriving DecidableEq

/-- Character-wise string order used to embed sorted() on names. -/
def charListLe : List Char → List Char → Bool
  | [], _ => true
  | _ :: _, [] => false
  | a :: as, b :: bs => if a == b then charListLe as bs else decide (a.toNat < b.toNat)

/-- Insertion into a sorted list of strings. -/
def insertSorted (x : String) : List String → List String
  | [] => [x]
  | y :: ys => if charListLe x.toList y.toList then x :: y :: ys else y :: insertSorted x ys

/-- Embeds sorted() on a list of parameter names. -/
def sortStrings (l : List String) : List String := l.foldr insertSorted []

/-- Embeds str.join with a comma separator. -/
def joinComma : List String → String
  | [] => ""
  | [x] => x
  | x :: rest => x ++ ", " ++ joinComma rest

/-- Embeds start_extraction up to the spawn of the worker thread: request
resolution, the progress-callback check, the missing-parameter check, and
the lock-guarded busy check before launching. The lock makes the
check-and-launch one atomic step of this sequential model. -/
def start_extraction (s : SvcSt) (request : Option ExtractionRequest)
    (folder_path : Option String) (mode : Option String)
    (include_hidden : Option Bool) (extensions : Option (List String))
    (exclude_files : Option (List String)) (exclude_folders : Option (List String))
    (output_file_name : Option String) (progress_callback_given : Bool) :
    Except StartError SvcSt :=
  let folder_path := match request with | some r => some r.folder_path | none => folder_path
  let mode := match request with | some r => some r.mode | none => mode
  let include_hidden := match request with | some r => some r.include_hidden | none => include_hidden
  let extensions := match request with | some r => some r.extensions | none => extensions
  let exclude_files := match request with | some r => some r.exclude_files | none => exclude_files
  let exclude_folders := match request with | some r => some r.exclude_folders | none => exclude_folders
  let output_file_name := match request with | some r => some r.output_file_name | none => output_file_name
  if !progress_callback_given then
    Except.error (StartError.valueErr ("progress_callback must be provided"))
  else
    let missing :=
      (if folder_path.isNone then ["folder_path"] else []) ++
      (if mode.isNone then ["mode"] else []) ++
      (if include_hidden.isNone then ["include_hidden"] else []) ++
      (if extensions.isNone then ["extensions"] else []) ++
      (if exclude_files.isNone then ["exclude_files"] else []) ++
      (if exclude_folders.isNone then ["exclude_folders"] else []) ++
      (if output_file_name.isNone then ["output_file_name"] else [])
    if !missing.isEmpty then
      Except.error (StartError.valueErr
        ("Missing extraction parameters: " ++ joinComma (sortStrings missing)))
    else
      if s.is_running then Except.error StartError.busy
      else
        Except.ok
          { s with
              cancelEventSet := false
              thread := some true
              spawnCount := s.spawnCount + 1 }

/-- Drain loop of _publish_state_update: pop messages until the first one
whose level is not state, collecting the preserved state messages in
order; returns (preserved, evicted, remaining buffer). -/
def split_preserved_states : List QMsg → List QMsg × Option QMsg × List QMsg
  | [] => ([], none, [])
  | m :: rest =>
    if m.level == lvl_state then
      let r := split_preserved_states rest
      (m :: r.1, r.2.1, r.2.2)
    else ([], some m, rest)

/-- Restoration loop of _publish_state_update: put each preserved state
message back; one that meets Full is logged and lost. -/
def restore_states (c : Chan) : List QMsg → Chan
  | [] => c
  | m :: rest =>
    match put_nowait c m with
    | some c2 => restore_states c2 rest
    | none => restore_states c rest

/-- Embeds _publish_state_update: try put_nowait; when full, drain up to
the first non-state message, evicting it (or, when the whole buffer was
state messages, the oldest state message), restore the preserved state
messages at the back, and insert the new state message. Returns the
channel and whether the state message got in. -/
def publish_state_update (c : Chan) (payload : List (String × String)) : Chan × Bool :=
  let message : QMsg := ⟨lvl_state, Payload.stateKV payload⟩
  match put_nowait c message with
  | some c2 => (c2, true)
  | none =>
    let r := split_preserved_states c.buf
    let pe :=
      match r.2.1 with
      | some m => (r.1, some m)
      | none =>
        match r.1 with
        | [] => (([] : List QMsg), (none : Option QMsg))
        | p :: ps => (ps, some p)
    let c3 := restore_states { c with buf := r.2.2 } pe.1
    match pe.2 with
    | none => (c3, false)
    | some _ =>
      match put_nowait c3 message with
      | some c4 => (c4, true)
      | none => (c3, false)

/-- Outcome with which the worker body (extract_files) finishes. -/
inductive RunOutcome where
  | success
  | cancelled
  | errorExc (msg : String)
deriving DecidableEq

/-- The state payload _run_extraction ends up publishing for each
outcome: initialised to status finished / result success and then
adjusted by the exception handlers. -/
def state_payload_for (o : RunOutcome) : List (String × String) :=
  match o with
  | RunOutcome.success => [("status", "finished"), ("result", "success")]
  | RunOutcome.cancelled => [("status", "finished"), ("result", "cancelled")]
  | RunOutcome.errorExc m =>
    [("status", "finished"), ("result", "error"), ("message", m)]

/-- Embeds _run_extraction as a function of the worker outcome: the
cancellation and error handlers publish their blocking info or error
message, and the finally block publishes the terminal state payload.
Returns the channel plus the list of messages this run put into it. -/
def run_extraction (o : RunOutcome) (c : Chan) : Chan × List QMsg :=
  let step :=
    match o with
    | RunOutcome.success => (c, ([] : List QMsg))
    | RunOutcome.cancelled =>
      let m : QMsg := ⟨lvl_info, Payload.text ("Extraction cancelled")⟩
      (put_blocking c m, [m])
    | RunOutcome.errorExc msg =>
      let m : QMsg := ⟨lvl_error, Payload.text ("Extraction error: " ++ msg)⟩
      (put_blocking c m, [m])
  let payload := state_payload_for o
  let pub := publish_state_update step.1 payload
  (pub.1, step.2 ++ (if pub.2 then [⟨lvl_state, Payload.stateKV payload⟩] else []))

/-! Part F: streaming file processing (process_file and its helpers).
The filesystem, hashing, path normalisation and glob matching are
environment functions; the shared cancellation event is a poll-count
threshold; MemoryError and UnicodeDecodeError during chunk reads are
driven by a per-file event plan indexed by attempt and chunk number. -/

/-- Outcome of one chunk read from the source file. -/
inductive ReadEvent where
  | ok
  | memoryError
  | decodeError
deriving DecidableEq

/-- What the filesystem reports for one path: existence, regular-file
flag, read permission, size, text content, and the plan of read events
(attempt index, chunk index). -/
structure FileView where
  fexists : Bool
  isFile : Bool
  readable : Bool
  fsize : Nat
  content : List Char
  readEvent : Nat → Nat → ReadEvent

/-- Ambient environment of a run: the filesystem, the sha256 hex digest
of accumulated text, os.path.normpath composed with separator
replacement, os.path.abspath, fnmatch.fnmatch, the poll count at which
the shared cancellation event becomes set (none = never), and whether
eager enumeration raises MemoryError. -/
structure Env where
  readFile : String → FileView
  shaHex : List Char → String
  normpath : String → String
  abspath : String → String
  fnmatch : String → String → Bool
  cancelAt : Option Nat
  enumMemErr : Bool

/-- Embeds is_cancelled() at a given poll count: the event is set from
poll cancelAt onwards. -/
def is_cancelled (env : Env) (polls : Nat) : Bool :=
  match env.cancelAt with
  | none => false
  | some k => decide (k ≤ polls)

/-- Embeds constants.CHUNK_SIZE. -/
def CHUNK_SIZE : Nat := 8192

/-- Embeds constants.SPECIFICATION_FILES. -/
def SPECIFICATION_FILES : List String := ["README.md", "SPECIFICATIONS.md"]

/-- The three-newline separator written after each file. -/
def sepChars : List Char := ['\n', '\n', '\n']

/-- Exceptions escaping _stream_file_contents. -/
inductive StreamExc where
  | cancelled
  | memory
  | decode
deriving DecidableEq

/-- Result of one streaming attempt: the hex digest or an exception,
the output handle contents, and the poll count. -/
structure StreamRes where
  res : Except StreamExc String
  out : List Char
  polls : Nat

/-- Loop of _stream_file_contents: per iteration poll cancellation, read
one chunk (consulting the read-event plan), break on empty read, write
the header before the first chunk, update the hash, write the chunk.
After the loop the header is written if no chunk was, then the
separator. Fuel dominates the iteration count (each non-final iteration
consumes at least one character of the remaining content). -/
def stream_loop (env : Env) (fv : FileView) (attempt : Nat) (headerLine : List Char)
    (chunk_size : Nat) (remaining : List Char) (chunkIdx : Nat) (header_written : Bool)
    (hashAcc : List Char) (out : List Char) (polls : Nat) : Nat → StreamRes
  | 0 => ⟨Except.ok (env.shaHex hashAcc), out, polls⟩
  | fuel + 1 =>
    if is_cancelled env polls then ⟨Except.error StreamExc.cancelled, out, polls + 1⟩
    else
      let polls := polls + 1
      match fv.readEvent attempt chunkIdx with
      | ReadEvent.memoryError => ⟨Except.error StreamExc.memory, out, polls⟩
      | ReadEvent.decodeError => ⟨Except.error StreamExc.decode, out, polls⟩
      | ReadEvent.ok =>
        let chunk := remaining.take chunk_size
        if chunk.isEmpty then
          let out := if header_written then out else out ++ headerLine
          ⟨Except.ok (env.shaHex hashAcc), out ++ sepChars, polls⟩
        else
          let out := if header_written then out else out ++ headerLine
          stream_loop env fv attempt headerLine chunk_size (remaining.drop chunk_size)
            (chunkIdx + 1) true (hashAcc ++ chunk) (out ++ chunk) polls fuel

/-- Embeds _stream_file_contents for one attempt over the whole file. -/
def stream_file_contents (env : Env) (fv : FileView) (attempt : Nat)
    (normalized_path : String) (chunk_size : Nat) (out : List Char) (polls : Nat) :
    StreamRes :=
  stream_loop env fv attempt (normalized_path.toList ++ [':', '\n']) chunk_size
    fv.content 0 false [] out polls (fv.content.length + 1)

/-- Warning text for files beyond the soft size cap. -/
def msg_large_file (path : String) : String :=
  "Processing large file beyond configured threshold: " ++ path

/-- Warning text for a memory-pressure retry with a smaller chunk size. -/
def msg_memory_pressure (path : String) (next : Nat) : String :=
  "Memory pressure detected while processing " ++ path ++
    "; retrying with " ++ toString next ++ "-byte chunks"

/-- Error text for a file skipped after repeated memory pressure. -/
def msg_skipped_memory (path : String) : String :=
  "Skipped file due to repeated memory pressure: " ++ path

/-- Error text for a decode failure (the trailing exception detail of the
source f-string is not modelled). -/
def msg_cannot_decode (path : String) : String :=
  "Cannot decode file " ++ path

/-- Error text of the generic per-file handler (the trailing exception
detail of the source f-string is not modelled). -/
def msg_error_processing (path : String) : String :=
  "Error processing " ++ path

/-- Outcome of the chunk-shrinking retry loop of process_file. -/
inductive AttemptRes where
  | okHash (h : String)
  | cancelledE
  | decodeE
  | skippedE
deriving DecidableEq

/-- The while-True retry loop of process_file: stream; on MemoryError
roll the output handle back to the recorded position, halve the chunk
size with a floor of 1024, and either retry or, at the floor, report and
raise ExtractionSkipped. Fuel dominates the halving chain length. -/
def retry_loop (env : Env) (fv : FileView) (normalized_path file_path : String)
    (start_position : Nat) (chunk_size attempt : Nat) (st : ProcSt) (out : List Char)
    (polls : Nat) : Nat → AttemptRes × ProcSt × List Char × Nat
  | 0 => (AttemptRes.skippedE, st, out, polls)
  | fuel + 1 =>
    let r := stream_file_contents env fv attempt normalized_path chunk_size out polls
    match r.res with
    | Except.ok h => (AttemptRes.okHash h, st, r.out, r.polls)
    | Except.error StreamExc.cancelled => (AttemptRes.cancelledE, st, r.out, r.polls)
    | Except.error StreamExc.decode => (AttemptRes.decodeE, st, r.out, r.polls)
    | Except.error StreamExc.memory =>
      let out2 := r.out.take start_position
      let next_chunk_size := max 1024 (chunk_size / 2)
      if next_chunk_size == chunk_size then
        let st := enqueue_message st lvl_error (Payload.text (msg_skipped_memory file_path))
        (AttemptRes.skippedE, st, out2, r.polls)
      else
        let st := enqueue_message st lvl_warning
          (Payload.text (msg_memory_pressure file_path next_chunk_size))
        retry_loop env fv normalized_path file_path start_position next_chunk_size
          (attempt + 1) st out2 r.polls fuel

/-- Exceptions escaping process_file. -/
inductive PfExc where
  | cancelled
  | skipped
deriving DecidableEq

/-- Result of process_file: the return value or escaping exception, the
processor state, the output handle contents, and the poll count. -/
structure PfRes where
  res : Except PfExc Bool
  st : ProcSt
  out : List Char
  polls : Nat

/-- Embeds process_file: existence and permission checks (their failures
are caught by the generic handler and reported as skips), the advisory
size-cap warning, then the retry loop; cancellation and skip roll the
output handle back to the recorded start position and re-raise, decode
failures roll back and return False, success updates the summary. -/
def process_file (env : Env) (file_path : String) (st : ProcSt) (out : List Char)
    (polls : Nat) : PfRes :=
  let fv := env.readFile file_path
  if !fv.fexists then
    ⟨Except.ok false,
      enqueue_message st lvl_error (Payload.text (msg_error_processing file_path)),
      out, polls⟩
  else if !fv.readable then
    ⟨Except.ok false,
      enqueue_message st lvl_error (Payload.text (msg_error_processing file_path)),
      out, polls⟩
  else
    let st :=
      match st.maxFileSizeBytes with
      | some cap =>
        if cap < fv.fsize then
          let st := enqueue_message st lvl_warning (Payload.text (msg_large_file file_path))
          { st with largeFileWarnings := st.largeFileWarnings + 1 }
        else st
      | none => st
    let normalized_path := env.normpath file_path
    let file_ext := splitext_ext file_path
    let start_position := out.length
    match retry_loop env fv normalized_path file_path start_position CHUNK_SIZE 0 st out
        polls (CHUNK_SIZE + 2) with
    | (AttemptRes.okHash h, st, out, polls) =>
      ⟨Except.ok true, update_extraction_summary st file_ext file_path fv.fsize h, out, polls⟩
    | (AttemptRes.cancelledE, st, out, polls) =>
      ⟨Except.error PfExc.cancelled, st, out.take start_position, polls⟩
    | (AttemptRes.skippedE, st, out, polls) =>
      ⟨Except.error PfExc.skipped, st, out.take start_position, polls⟩
    | (AttemptRes.decodeE, st, out, polls) =>
      let st := enqueue_message st lvl_error (Payload.text (msg_cannot_decode file_path))
      ⟨Except.ok false, st, out.take start_position, polls⟩

/-! Part G: the eligibility scanner (_iter_eligible_file_paths). -/

/-- A directory tree node: its name, the base names of its files, and its
subdirectories. -/
inductive FSDir where
  | mk (dname : String) (files : List String) (subdirs : List FSDir)

/-- Name of a directory node. -/
def FSDir.dname : FSDir → String
  | FSDir.mk n _ _ => n

/-- File base names of a directory node. -/
def FSDir.files : FSDir → List String
  | FSDir.mk _ f _ => f

/-- Subdirectories of a directory node. -/
def FSDir.subdirs : FSDir → List FSDir
  | FSDir.mk _ _ s => s

mutual

/-- Number of nodes of a directory tree, used as walk fuel. -/
def fsdirSize : FSDir → Nat
  | FSDir.mk _ _ subs => 1 + fsdirListSize subs

/-- Number of nodes of a forest. -/
def fsdirListSize : List FSDir → Nat
  | [] => 0
  | d :: ds => fsdirSize d + fsdirListSize ds

end

/-- Scan context precomputed in the prologue of
_iter_eligible_file_paths. -/
structure ScanCfg where
  mode : String
  include_hidden : Bool
  normalized_extensions : List String
  has_wildcard : Bool
  exclude_files : List String
  exclude_folders : List String
  output_file_abs : String

/-- Walk state: the eligible paths yielded so far, the seen-path set, and
the poll count. -/
structure WalkSt where
  acc : List String
  seen : List String
  polls : Nat
deriving DecidableEq

/-- The extension test of the scanner: inclusion admits a wildcard or a
listed extension; exclusion admits nothing under a wildcard and
otherwise everything not listed; other modes admit nothing. -/
def should_process_ext (mode : String) (has_wildcard : Bool)
    (normalized_extensions : List String) (file_ext_lower : String) : Bool :=
  if mode == "inclusion" then
    has_wildcard || normalized_extensions.contains file_ext_lower
  else if mode == "exclusion" then
    if has_wildcard then false
    else !(normalized_extensions.contains file_ext_lower)
  else false

/-- Hidden-entry pruning applied when include_hidden is false. -/
def prune_hidden (include_hidden : Bool) (names : List String) : List String :=
  if include_hidden then names else names.filter (fun n => !(strStartsWith n (".")))

/-- Exclude-pattern pruning via fnmatch against every pattern. -/
def prune_excluded (env : Env) (patterns : List String) (names : List String) : List String :=
  names.filter (fun n => !(patterns.any (fun p => env.fnmatch n p)))

/-- Per-file loop of the scanner inside one directory: poll cancellation,
skip the output artifact, skip already processed or seen paths, apply the
extension test, and yield the survivors in order. -/
def walk_files (env : Env) (cfg : ScanCfg) (processed : List String) (root : String)
    (names : List String) (ws : WalkSt) : Except Nat WalkSt :=
  match names with
  | [] => Except.ok ws
  | file_name :: rest =>
    if is_cancelled env ws.polls then Except.error (ws.polls + 1)
    else
      let ws := { ws with polls := ws.polls + 1 }
      let file_path := joinPath root file_name
      if env.abspath file_path == cfg.output_file_abs then
        walk_files env cfg processed root rest ws
      else if processed.contains file_path || ws.seen.contains file_path then
        walk_files env cfg processed root rest ws
      else
        let file_ext_lower := strLower (splitext_ext file_name)
        if should_process_ext cfg.mode cfg.has_wildcard cfg.normalized_extensions
            file_ext_lower then
          walk_files env cfg processed root rest
            { ws with seen := ws.seen ++ [file_path], acc := ws.acc ++ [file_path] }
        else walk_files env cfg processed root rest ws

/-- Depth-first walk over a worklist of (root, directory) pairs,
embedding os.walk with in-place pruning: poll cancellation per
directory, prune hidden entries and exclude patterns, process the files
of the directory, then descend into the retained subdirectories in
order. Fuel dominates the number of directories. -/
def walk_loop (env : Env) (cfg : ScanCfg) (processed : List String) (ws : WalkSt) :
    List (String × FSDir) → Nat → Except Nat WalkSt
  | _, 0 => Except.ok ws
  | [], _ + 1 => Except.ok ws
  | (root, d) :: rest, fuel + 1 =>
    if is_cancelled env ws.polls then Except.error (ws.polls + 1)
    else
      let ws := { ws with polls := ws.polls + 1 }
      let mutable_dirs := prune_hidden cfg.include_hidden (d.subdirs.map FSDir.dname)
      let mutable_files := prune_hidden cfg.include_hidden d.files
      let filtered_dirs := prune_excluded env cfg.exclude_folders mutable_dirs
      let filtered_files := prune_excluded env cfg.exclude_files mutable_files
      let kept := d.subdirs.filter (fun s => filtered_dirs.contains s.dname)
      match walk_files env cfg processed root filtered_files ws with
      | Except.error p => Except.error p
      | Except.ok ws =>
        walk_loop env cfg processed ws
          ((kept.map (fun s => (joinPath root s.dname, s))) ++ rest) fuel

/-- Embeds _iter_eligible_file_paths, materialised to the eligible path
list: wildcard detection and extension normalisation, then the pruned
depth-first walk. Errors carry the poll count at cancellation. -/
def iter_eligible_file_paths (env : Env) (folder_path : String) (tree : FSDir)
    (mode : String) (include_hidden : Bool)
    (extensions exclude_files exclude_folders : List String)
    (output_file_abs : String) (processed : List String) (polls : Nat) :
    Except Nat (List String × Nat) :=
  let normalized_extensions :=
    (extensions.filter (fun e => !wildcard_tokens.contains e)).map strLower
  let has_wildcard := extensions.any (fun e => wildcard_tokens.contains e)
  let cfg : ScanCfg :=
    ⟨mode, include_hidden, normalized_extensions, has_wildcard,
      exclude_files, exclude_folders, output_file_abs⟩
  match walk_loop env cfg processed ⟨[], [], polls⟩ [(folder_path, tree)]
      (fsdirSize tree + 1) with
  | Except.error p => Except.error p
  | Except.ok ws => Except.ok (ws.acc, ws.polls)

/-! Part H: specification processing and the main extraction loop
(process_specifications, extract_files). -/

/-- Worker state threaded through specification and file processing: the
processor state, the output handle contents, and the poll count. -/
structure WSt where
  st : ProcSt
  out : List Char
  polls : Nat

/-- Set-insertion into processed_files. -/
def add_processed (l : List String) (p : String) : List String :=
  if l.contains p then l else l ++ [p]

/-- Error text of the specification-loop handler (the trailing exception
detail of the source f-string is not modelled). -/
def msg_error_processing_spec (spec_file : String) : String :=
  "Error processing " ++ spec_file

/-- Embeds the loop of process_specifications: for each well-known
specification file, poll cancellation, then when the path exists and is
a regular file run process_file; a ProcessFile skip signal or an
internal exception is counted as a skipped specification, while
cancellation re-raises. Returns the skipped_specs count. -/
def process_specs_loop (env : Env) (directory_path : String) (specs : List String)
    (skipped_specs : Nat) (w : WSt) : Except WSt (Nat × WSt) :=
  match specs with
  | [] => Except.ok (skipped_specs, w)
  | spec_file :: rest =>
    if is_cancelled env w.polls then Except.error { w with polls := w.polls + 1 }
    else
      let w : WSt := { w with polls := w.polls + 1 }
      let file_path := joinPath directory_path spec_file
      let fv := env.readFile file_path
      if fv.fexists && fv.isFile then
        match process_file env file_path w.st w.out w.polls with
        | ⟨Except.ok true, st, out, polls⟩ =>
          process_specs_loop env directory_path rest skipped_specs
            ⟨{ st with processedFiles := add_processed st.processedFiles file_path },
              out, polls⟩
        | ⟨Except.ok false, st, out, polls⟩ =>
          process_specs_loop env directory_path rest (skipped_specs + 1) ⟨st, out, polls⟩
        | ⟨Except.error PfExc.cancelled, st, out, polls⟩ => Except.error ⟨st, out, polls⟩
        | ⟨Except.error PfExc.skipped, st, out, polls⟩ =>
          let st := enqueue_message st lvl_error
            (Payload.text (msg_error_processing_spec spec_file))
          process_specs_loop env directory_path rest (skipped_specs + 1) ⟨st, out, polls⟩
      else process_specs_loop env directory_path rest skipped_specs w

/-- Embeds process_specifications. -/
def process_specifications (env : Env) (directory_path : String) (w : WSt) :
    Except WSt (Nat × WSt) :=
  process_specs_loop env directory_path SPECIFICATION_FILES 0 w

/-- Completion message of a successful run. -/
def msg_completion (processed_count skipped_count : Nat) (output_file_name : String) :
    String :=
  let base := "Extraction complete. Processed " ++ toString processed_count ++
    " files. Results written to " ++ output_file_name ++ "."
  if skipped_count != 0 then
    base ++ " Skipped " ++ toString skipped_count ++ " files due to safeguards."
  else base

/-- Metrics summary message of a successful run (elapsed time and rate
are wall-clock values and are not modelled). -/
def msg_metrics_summary (processed_count skipped_count max_queue_depth : Nat) : String :=
  "Extraction metrics: processed=" ++ toString processed_count ++
    ", max_queue_depth=" ++ toString max_queue_depth ++
    ", skipped=" ++ toString skipped_count

/-- Warning emitted when eager enumeration fails and progress becomes
indeterminate. -/
def msg_indeterminate : String :=
  "Large directory detected; progress will be indeterminate"

/-- Error message enqueued by the catch-all handler of extract_files (the
embedded exception text is not modelled). -/
def msg_error_during_extraction : String :=
  "Error during extraction: "

/-- Trace of one extract_files run: whether it returned or re-raised
cancellation, the final processor state, output contents and poll count,
the log of progress-callback invocations, and the skipped_specs value
returned by specification processing (0 when that phase was cut short by
cancellation). -/
structure RunTrace where
  res : Except Unit Unit
  st : ProcSt
  out : List Char
  polls : Nat
  cbLog : List (Int × Int)
  skippedSpecs : Nat

/-- Embeds the per-file loop of extract_files: each path is attempted
once; a skip signal or a False return counts it as skipped and reports
progress with the processed-plus-skipped attempt count, a True return
counts it as processed and reports progress with the processed count
alone, and cancellation aborts the loop. -/
def process_paths_loop (env : Env) (total_files : Int) (paths : List String)
    (processed_count skipped_count : Nat) (cbLog : List (Int × Int)) (w : WSt) :
    Except (List (Int × Int) × WSt) (Nat × Nat × List (Int × Int) × WSt) :=
  match paths with
  | [] => Except.ok (processed_count, skipped_count, cbLog, w)
  | file_path :: rest =>
    match process_file env file_path w.st w.out w.polls with
    | ⟨Except.error PfExc.skipped, st, out, polls⟩ =>
      let skipped_count := skipped_count + 1
      let attempts := processed_count + skipped_count
      process_paths_loop env total_files rest processed_count skipped_count
        (cbLog ++ [((attempts : Int), total_files)]) ⟨st, out, polls⟩
    | ⟨Except.error PfExc.cancelled, st, out, polls⟩ =>
      Except.error (cbLog, ⟨st, out, polls⟩)
    | ⟨Except.ok false, st, out, polls⟩ =>
      let skipped_count := skipped_count + 1
      let attempts := processed_count + skipped_count
      process_paths_loop env total_files rest processed_count skipped_count
        (cbLog ++ [((attempts : Int), total_files)]) ⟨st, out, polls⟩
    | ⟨Except.ok true, st, out, polls⟩ =>
      let st := { st with processedFiles := add_processed st.processedFiles file_path }
      let processed_count := processed_count + 1
      process_paths_loop env total_files rest processed_count skipped_count
        (cbLog ++ [((processed_count : Int), total_files)]) ⟨st, out, polls⟩

/-- Continuation of extract_files after enumeration: the initial progress
report, the per-file loop, the completion message, and the metrics of
the else branch including the final indeterminate-progress report. -/
def extract_main (env : Env) (output_file_name : String) (total_files : Int)
    (paths : List String) (skipped_specs : Nat) (w : WSt) : RunTrace :=
  let cbLog : List (Int × Int) := [((0 : Int), total_files)]
  match process_paths_loop env total_files paths 0 skipped_specs cbLog w with
  | Except.error (cbLog, w) =>
    let st := enqueue_message w.st lvl_error (Payload.text msg_error_during_extraction)
    ⟨Except.error (), st, w.out, w.polls, cbLog, skipped_specs⟩
  | Except.ok (processed_count, skipped_count, cbLog, w) =>
    let st := enqueue_message w.st lvl_info
      (Payload.text (msg_completion processed_count skipped_count output_file_name))
    let st := { st with skippedFiles := skipped_count }
    let known_total : Option Nat :=
      if 0 ≤ total_files then some total_files.toNat else none
    let estimated_total := processed_count + skipped_count
    let normalised_total :=
      match known_total with
      | some t => t
      | none => estimated_total
    let cbLog :=
      if known_total.isNone && (processed_count != 0 || skipped_count != 0) then
        let attempts := processed_count + skipped_count
        cbLog ++ [((attempts : Int), (attempts : Int))]
      else cbLog
    let metrics : RunMetrics :=
      { processed_files := processed_count
        max_queue_depth := st.maxQueueDepth
        total_files := (normalised_total : Int)
        dropped_messages := st.droppedMessages
        skipped_files := skipped_count
        total_files_known := known_total.isSome
        large_file_warnings := st.largeFileWarnings
        max_file_size_bytes := st.maxFileSizeBytes.getD 0
        total_files_estimated :=
          if known_total.isSome then none else some estimated_total }
    let st := { st with lastRunMetrics := some metrics }
    let st := enqueue_message st lvl_info
      (Payload.text (msg_metrics_summary processed_count skipped_count st.maxQueueDepth))
    ⟨Except.ok (), st, w.out, w.polls, cbLog, skipped_specs⟩

/-- Embeds extract_files: reset the run instrumentation, truncate the
output artifact, process specification files first, enumerate eligible
paths (eagerly for an exact total, or lazily with the indeterminate
sentinel when the environment reports enumeration memory pressure), then
run the per-file loop; cancellation anywhere enqueues the catch-all
error message and re-raises. The lazy fallback is modelled with the same
materialised path list; the interleaving of its cancellation polls with
processing is not modelled. -/
def extract_files (env : Env) (folder_path : String) (tree : FSDir) (mode : String)
    (include_hidden : Bool) (extensions exclude_files exclude_folders : List String)
    (output_file_name : String) (st0 : ProcSt) (polls : Nat) : RunTrace :=
  let st : ProcSt :=
    { st0 with
        maxQueueDepth := st0.chan.buf.length
        lastRunMetrics := none
        droppedMessages := 0
        largeFileWarnings := 0 }
  let output_file_abs := env.abspath output_file_name
  let out : List Char := []
  match process_specifications env folder_path ⟨st, out, polls⟩ with
  | Except.error w =>
    let st := enqueue_message w.st lvl_error (Payload.text msg_error_during_extraction)
    ⟨Except.error (), st, w.out, w.polls, [], 0⟩
  | Except.ok (skipped_specs, w) =>
    if env.enumMemErr then
      let st2 := enqueue_message w.st lvl_warning (Payload.text msg_indeterminate)
      match iter_eligible_file_paths env folder_path tree mode include_hidden extensions
          exclude_files exclude_folders output_file_abs st2.processedFiles w.polls with
      | Except.error p =>
        let st3 := enqueue_message st2 lvl_error (Payload.text msg_error_during_extraction)
        ⟨Except.error (), st3, w.out, p, [], skipped_specs⟩
      | Except.ok (paths, polls2) =>
        extract_main env output_file_name (-1) paths skipped_specs ⟨st2, w.out, polls2⟩
    else
      match iter_eligible_file_paths env folder_path tree mode include_hidden extensions
          exclude_files exclude_folders output_file_abs w.st.processedFiles w.polls with
      | Except.error p =>
        let st3 := enqueue_message w.st lvl_error (Payload.text msg_error_during_extraction)
        ⟨Except.error (), st3, w.out, p, [], skipped_specs⟩
      | Except.ok (paths, polls2) =>
        extract_main env output_file_name ((paths.length : Int)) paths skipped_specs
          ⟨w.st, w.out, polls2⟩

/-! Part I: theorems checking the claims. -/

/-- The loop of the normaliser processes tokens one at a time through the
per-token rule and setdefault, whatever the accumulator. -/
theorem normalise_tokens_loop_spec (raw : List String) (acc : List String) :
    normalise_tokens_loop raw acc =
      (raw.filterMap normalise_one_token).foldl setdefault acc := by
  induction raw generalizing acc with
  | nil => simp [normalise_tokens_loop]
  | cons e rest ih =>
    simp only [normalise_tokens_loop, normalise_one_token, List.filterMap_cons]
    by_cases h0 : strLower (pyStrip e) == ""
    · simp [h0, ih]
    · by_cases h1 : strLower (pyStrip e) ∈ wildcard_tokens
      · simp [h0, h1, ih, List.foldl_cons]
      · simp [h0, h1, ih, List.foldl_cons]

/-- setdefault preserves distinctness of keys. -/
theorem setdefault_nodup (l : List String) (k : String) (h : l.Nodup) :
    (setdefault l k).Nodup := by
  unfold setdefault
  split
  · exact h
  · next hc =>
    refine List.Nodup.append h (List.nodup_singleton k) ?_
    intro a ha hb
    rcases List.mem_singleton.mp hb with rfl
    exact hc (by simpa using ha)

/-- A fold of setdefault from a distinct accumulator stays distinct. -/
theorem foldl_setdefault_nodup (l : List String) :
    ∀ acc : List String, acc.Nodup → (l.foldl setdefault acc).Nodup := by
  induction l with
  | nil => intro acc h; simpa using h
  | cons x rest ih =>
    intro acc h
    simpa [List.foldl_cons] using ih (setdefault acc x) (setdefault_nodup acc x h)

/-- C8: the extension normaliser trims and lower-cases each raw token,
drops empties, passes the wildcard tokens through, strips the star of a
star-dot prefix, prepends a missing leading dot, keeps the order of
first appearance and removes duplicates after normalisation; on the
concrete input of the claim it yields .py, .md, .txt. -/
theorem C8_normalise_extension_tokens :
    normalise_extension_tokens ["PY", "*.MD", ".txt", " ", ""] = [".py", ".md", ".txt"]
    ∧ (∀ raw : List String,
        normalise_extension_tokens raw =
          dedup_keep_first (raw.filterMap normalise_one_token))
    ∧ (∀ raw : List String, (normalise_extension_tokens raw).Nodup) := by
  refine ⟨by decide, fun raw => ?_, fun raw => ?_⟩
  · simpa [dedup_keep_first] using normalise_tokens_loop_spec raw []
  · have h := normalise_tokens_loop_spec raw []
    rw [show normalise_extension_tokens raw = normalise_tokens_loop raw [] from rfl, h]
    exact foldl_setdefault_nodup _ [] (List.nodup_nil)

/-- C1: on worker exit the coordinator publishes exactly one state-level
message whose payload carries status finished and the matching result,
with a message entry only on error; but the payload carries no metrics
entry, so the final RunMetrics of the run are not attached to it
(diverging from the claim and from test_state_payload_includes_metrics). -/
theorem C1_terminal_state_has_no_metrics :
    ((run_extraction RunOutcome.success ⟨4, []⟩).2.filter
        (fun m => m.level == lvl_state) =
      [⟨lvl_state, Payload.stateKV (state_payload_for RunOutcome.success)⟩])
    ∧ ((run_extraction RunOutcome.cancelled ⟨4, []⟩).2.filter
        (fun m => m.level == lvl_state) =
      [⟨lvl_state, Payload.stateKV (state_payload_for RunOutcome.cancelled)⟩])
    ∧ ((run_extraction (RunOutcome.errorExc "boom") ⟨4, []⟩).2.filter
        (fun m => m.level == lvl_state) =
      [⟨lvl_state, Payload.stateKV (state_payload_for (RunOutcome.errorExc "boom"))⟩])
    ∧ lookupKV (state_payload_for RunOutcome.success) ("status") = some ("finished")
    ∧ lookupKV (state_payload_for RunOutcome.success) ("result") = some ("success")
    ∧ lookupKV (state_payload_for RunOutcome.cancelled) ("result") = some ("cancelled")
    ∧ lookupKV (state_payload_for (RunOutcome.errorExc "boom")) ("result") = some ("error")
    ∧ lookupKV (state_payload_for (RunOutcome.errorExc "boom")) ("message") = some ("boom")
    ∧ lookupKV (state_payload_for RunOutcome.success) ("message") = none
    ∧ lookupKV (state_payload_for RunOutcome.success) ("metrics") = none
    ∧ lookupKV (state_payload_for RunOutcome.cancelled) ("metrics") = none
    ∧ lookupKV (state_payload_for (RunOutcome.errorExc "boom")) ("metrics") = none := by
  decide

/-- C9: calling start while the worker thread is alive raises the busy
RuntimeError, and a successful start can only happen from a non-running
state, spawning exactly one new worker with a cleared cancellation
event. -/
theorem C9_single_flight_start :
    (∀ (s : SvcSt) (r : ExtractionRequest) (fp md : Option String)
        (ih : Option Bool) (exts exf exd : Option (List String))
        (ofn : Option String),
      s.is_running = true →
      start_extraction s (some r) fp md ih exts exf exd ofn true =
        Except.error StartError.busy)
    ∧ (∀ (s : SvcSt) (req : Option ExtractionRequest) (fp md : Option String)
        (ih : Option Bool) (exts exf exd : Option (List String))
        (ofn : Option String) (pcb : Bool) (s2 : SvcSt),
      start_extraction s req fp md ih exts exf exd ofn pcb = Except.ok s2 →
      s.is_running = false ∧ s2.spawnCount = s.spawnCount + 1 ∧
        s2.is_running = true ∧ s2.cancelEventSet = false) := by
  constructor
  · intro s r fp md ih exts exf exd ofn hrun
    simp [start_extraction, hrun]
  · intro s req fp md ih exts exf exd ofn pcb s2 h
    unfold start_extraction at h
    by_cases hp : pcb
    · simp only [hp] at h
      by_cases hr : s.is_running
      · simp [hr] at h
        split at h
        · exact absurd h (by simp)
        · exact absurd h (by simp)
      · simp [hr] at h
        split at h
        · exact absurd h (by simp)
        · injection h with h2
          subst h2
          exact ⟨by simpa using hr, rfl, rfl, rfl⟩
    · simp [hp] at h

/-- Witness for C9: a concrete busy start. -/
theorem C9_single_flight_start_witness :
    start_extraction ⟨⟨4, []⟩, some true, 1, false⟩
        (some ⟨"f", "inclusion", false, [], [], [], "o"⟩)
        none none none none none none none true =
      Except.error StartError.busy :=
  C9_single_flight_start.1 ⟨⟨4, []⟩, some true, 1, false⟩
    ⟨"f", "inclusion", false, [], [], [], "o"⟩
    none none none none none none none rfl

/-- Erasing at the index right after a prefix removes the element there. -/
theorem eraseIdx_append_cons {α : Type} (pre suf : List α) (m : α) :
    (pre ++ m :: suf).eraseIdx pre.length = pre ++ suf := by
  induction pre with
  | nil => simp [List.eraseIdx]
  | cons a as ih => simp [List.eraseIdx, ih]

/-- findIdx? finds the first hit right after a run of misses. -/
theorem findIdx?_first_hit (p : QMsg → Bool) (m : QMsg) (suf : List QMsg)
    (hm : p m = true) (pre : List QMsg) (hpre : ∀ x ∈ pre, p x = false) :
    List.findIdx? p (pre ++ m :: suf) = some pre.length := by
  rw [List.findIdx?_append, List.findIdx?_eq_none_iff.mpr hpre]
  simp [hm]

/-- record_queue_depth only touches the depth counter. -/
theorem record_queue_depth_fields (st : ProcSt) :
    ∃ q, record_queue_depth st = { st with maxQueueDepth := q } := by
  unfold record_queue_depth
  split
  · exact ⟨st.chan.buf.length, rfl⟩
  · exact ⟨st.maxQueueDepth, rfl⟩

/-- Restoring messages into a channel with room appends them all in
order, touching nothing but the depth counter. -/
theorem restoreMsgs_ok (msgs : List QMsg) : ∀ (st : ProcSt),
    st.chan.buf.length + msgs.length ≤ st.chan.cap →
    ∃ q, restoreMsgs st msgs =
      (true, { st with
                chan := ({ st.chan with buf := st.chan.buf ++ msgs })
                maxQueueDepth := q }) := by
  induction msgs with
  | nil =>
    intro st h
    exact ⟨st.maxQueueDepth, by simp [restoreMsgs]⟩
  | cons m rest ih =>
    intro st h
    have hfull : st.chan.isFull = false := by
      simp only [Chan.isFull]
      simp only [List.length_cons] at h
      have hlt : st.chan.buf.length < st.chan.cap := by omega
      simp [Nat.not_le_of_lt hlt]
    have hput : put_nowait st.chan m =
        some { st.chan with buf := st.chan.buf ++ [m] } := by
      simp [put_nowait, hfull]
    obtain ⟨q1, hq1⟩ := record_queue_depth_fields
      { st with chan := { st.chan with buf := st.chan.buf ++ [m] } }
    obtain ⟨q2, hq2⟩ :=
      ih { st with chan := ({ st.chan with buf := st.chan.buf ++ [m] }), maxQueueDepth := q1 }
        (by simp at h ⊢; omega)
    refine ⟨q2, ?_⟩
    simp only [restoreMsgs, hput]
    rw [hq1, hq2]
    simp

/-- Stepping rule of the while loop: a failing put drains and retries or
gives up at the second unsuccessful drain. -/
theorem enqueue_loop_full_step (st : ProcSt) (level : String) (payload : Payload)
    (attempts fuel : Nat) (hfull : put_nowait st.chan ⟨level, payload⟩ = none) :
    enqueue_loop st level payload attempts (fuel + 1) =
      (if !(drain_for_capacity st (level == lvl_state)).1 && attempts + 1 > 1 then
        addDropped (drain_for_capacity st (level == lvl_state)).2
      else
        enqueue_loop (drain_for_capacity st (level == lvl_state)).2 level payload
          (attempts + 1) fuel) := by
  conv_lhs => unfold enqueue_loop
  rw [hfull]

/-- Stepping rule of the while loop: a successful put records the depth
and exits. -/
theorem enqueue_loop_ok_step (st : ProcSt) (level : String) (payload : Payload)
    (attempts fuel : Nat) (hnf : st.chan.isFull = false) :
    enqueue_loop st level payload attempts (fuel + 1) =
      record_queue_depth
        { st with
            chan := ({ st.chan with buf := st.chan.buf ++ [⟨level, payload⟩] }) } := by
  conv_lhs => unfold enqueue_loop
  rw [show put_nowait st.chan ⟨level, payload⟩ =
    some ({ st.chan with buf := st.chan.buf ++ [⟨level, payload⟩] }) by
      simp [put_nowait, hnf]]

/-- Backpressure case one: a full channel holding a non-state message
somewhere evicts the oldest such message, keeps the rest in order,
appends the new message and counts one drop. -/
theorem enqueue_drop_oldest_nonstate (st : ProcSt) (level : String) (payload : Payload)
    (pre suf : List QMsg) (m : QMsg)
    (hbuf : st.chan.buf = pre ++ m :: suf)
    (hpre : ∀ x ∈ pre, x.level = lvl_state)
    (hm : m.level ≠ lvl_state)
    (hlen : st.chan.buf.length = st.chan.cap)
    (hcap : 1 ≤ st.chan.cap) :
    ∃ q, enqueue_message st level payload =
      { st with
          chan := ({ st.chan with buf := (pre ++ suf) ++ [⟨level, payload⟩] })
          droppedMessages := st.droppedMessages + 1
          maxQueueDepth := q } := by
  have hfull : st.chan.isFull = true := by
    simp only [Chan.isFull]
    simp only [Bool.and_eq_true, decide_eq_true_eq]
    omega
  have hput1 : put_nowait st.chan ⟨level, payload⟩ = none := by
    simp [put_nowait, hfull]
  have hfind : List.findIdx? (fun x => x.level != lvl_state) st.chan.buf =
      some pre.length := by
    rw [hbuf]
    exact findIdx?_first_hit _ m suf (by simpa using hm) pre
      (fun x hx => by simp [hpre x hx])
  have hlenps : pre.length + suf.length + 1 = st.chan.cap := by
    rw [hbuf] at hlen
    simpa using hlen
  have hne : st.chan.buf.isEmpty = false := by
    rw [hbuf]
    rcases pre with _ | ⟨a, as⟩ <;> simp
  obtain ⟨q1, hq1⟩ := restoreMsgs_ok (pre ++ suf)
    (addDropped { st with chan := ({ st.chan with buf := [] }) })
    (by
      show 0 + (pre ++ suf).length ≤ st.chan.cap
      simp
      omega)
  have hdrain : drain_for_capacity st (level == lvl_state) =
      (true, { st with
          chan := ({ st.chan with buf := pre ++ suf })
          droppedMessages := st.droppedMessages + 1
          maxQueueDepth := q1 }) := by
    unfold drain_for_capacity
    rw [if_neg (by simp [hne])]
    rw [hfind]
    dsimp only
    rw [show st.chan.buf.eraseIdx pre.length = pre ++ suf by
      rw [hbuf, eraseIdx_append_cons]]
    rw [hq1]
    simp [addDropped]
  have hput2 : put_nowait ({ st.chan with buf := pre ++ suf } : Chan) ⟨level, payload⟩ =
      some ({ st.chan with buf := (pre ++ suf) ++ [⟨level, payload⟩] }) := by
    have hnf : ({ st.chan with buf := pre ++ suf } : Chan).isFull = false := by
      simp only [Chan.isFull]
      simp only [Bool.and_eq_false_iff]
      right
      simp only [decide_eq_false_iff_not, not_le]
      simp
      omega
    simp [put_nowait, hnf]
  have hnf2 : ({ st with
      chan := ({ st.chan with buf := pre ++ suf })
      droppedMessages := st.droppedMessages + 1
      maxQueueDepth := q1 } : ProcSt).chan.isFull = false := by
    simp only [Chan.isFull]
    simp only [Bool.and_eq_false_iff]
    right
    simp only [decide_eq_false_iff_not, not_le]
    simp
    omega
  unfold enqueue_message
  rw [show st.chan.buf.length + 3 = (st.chan.buf.length + 2) + 1 from rfl]
  rw [enqueue_loop_full_step st level payload 0 (st.chan.buf.length + 2) hput1]
  rw [hdrain]
  rw [if_neg (by simp)]
  show ∃ q, enqueue_loop
      ({ st with
          chan := ({ st.chan with buf := pre ++ suf })
          droppedMessages := st.droppedMessages + 1
          maxQueueDepth := q1 }) level payload 1 ((st.chan.buf.length + 1) + 1) =
    { st with
        chan := ({ st.chan with buf := (pre ++ suf) ++ [⟨level, payload⟩] })
        droppedMessages := st.droppedMessages + 1
        maxQueueDepth := q }
  rw [enqueue_loop_ok_step _ level payload 1 (st.chan.buf.length + 1) hnf2]
  obtain ⟨q2, hq2⟩ := record_queue_depth_fields
    { st with
        chan := ({ st.chan with buf := (pre ++ suf) ++ [⟨level, payload⟩] })
        droppedMessages := st.droppedMessages + 1
        maxQueueDepth := q1 }
  exact ⟨q2, hq2.trans rfl⟩

/-- Erasing index zero drops the head. -/
theorem eraseIdx_zero_tail (l : List QMsg) : l.eraseIdx 0 = l.tail := by
  cases l <;> simp [List.eraseIdx]

/-- Backpressure case two: a full channel of state messages receiving a
state message evicts the oldest state entry and appends the new one. -/
theorem enqueue_state_evicts_oldest_state (st : ProcSt) (payload : Payload)
    (hall : ∀ x ∈ st.chan.buf, x.level = lvl_state)
    (hlen : st.chan.buf.length = st.chan.cap)
    (hcap : 1 ≤ st.chan.cap) :
    ∃ q, enqueue_message st lvl_state payload =
      { st with
          chan := ({ st.chan with buf := st.chan.buf.tail ++ [⟨lvl_state, payload⟩] })
          droppedMessages := st.droppedMessages + 1
          maxQueueDepth := q } := by
  have hfull : st.chan.isFull = true := by
    simp only [Chan.isFull]
    simp only [Bool.and_eq_true, decide_eq_true_eq]
    omega
  have hput1 : put_nowait st.chan ⟨lvl_state, payload⟩ = none := by
    simp [put_nowait, hfull]
  have hfind : List.findIdx? (fun x => x.level != lvl_state) st.chan.buf = none :=
    List.findIdx?_eq_none_iff.mpr (fun x hx => by simp [hall x hx])
  have hne : st.chan.buf.isEmpty = false := by
    rcases hb : st.chan.buf with _ | ⟨a, as⟩
    · rw [hb] at hlen; simp at hlen; omega
    · simp
  have htail : st.chan.buf.tail.length + 1 = st.chan.cap := by
    rcases hb : st.chan.buf with _ | ⟨a, as⟩
    · rw [hb] at hlen; simp at hlen; omega
    · rw [hb] at hlen; simpa using hlen
  obtain ⟨q1, hq1⟩ := restoreMsgs_ok (st.chan.buf.tail)
    (addDropped { st with chan := ({ st.chan with buf := [] }) })
    (by
      show 0 + st.chan.buf.tail.length ≤ st.chan.cap
      omega)
  have hdrain : drain_for_capacity st (lvl_state == lvl_state) =
      (true, { st with
          chan := ({ st.chan with buf := st.chan.buf.tail })
          droppedMessages := st.droppedMessages + 1
          maxQueueDepth := q1 }) := by
    unfold drain_for_capacity
    rw [if_neg (by simp [hne])]
    rw [hfind]
    dsimp only
    rw [if_neg (by simp)]
    rw [eraseIdx_zero_tail]
    rw [hq1]
    simp [addDropped]
  have hnf2 : ({ st with
      chan := ({ st.chan with buf := st.chan.buf.tail })
      droppedMessages := st.droppedMessages + 1
      maxQueueDepth := q1 } : ProcSt).chan.isFull = false := by
    simp only [Chan.isFull]
    simp only [Bool.and_eq_false_iff]
    right
    simp only [decide_eq_false_iff_not, not_le]
    omega
  unfold enqueue_message
  rw [show st.chan.buf.length + 3 = (st.chan.buf.length + 2) + 1 from rfl]
  rw [enqueue_loop_full_step st lvl_state payload 0 (st.chan.buf.length + 2) hput1]
  rw [hdrain]
  rw [if_neg (by simp)]
  show ∃ q, enqueue_loop
      ({ st with
          chan := ({ st.chan with buf := st.chan.buf.tail })
          droppedMessages := st.droppedMessages + 1
          maxQueueDepth := q1 }) lvl_state payload 1 ((st.chan.buf.length + 1) + 1) =
    { st with
        chan := ({ st.chan with buf := st.chan.buf.tail ++ [⟨lvl_state, payload⟩] })
        droppedMessages := st.droppedMessages + 1
        maxQueueDepth := q }
  rw [enqueue_loop_ok_step _ lvl_state payload 1 (st.chan.buf.length + 1) hnf2]
  obtain ⟨q2, hq2⟩ := record_queue_depth_fields
    { st with
        chan := ({ st.chan with buf := st.chan.buf.tail ++ [⟨lvl_state, payload⟩] })
        droppedMessages := st.droppedMessages + 1
        maxQueueDepth := q1 }
  exact ⟨q2, hq2.trans rfl⟩

/-- Backpressure case three: a full channel of state messages receiving a
non-state message keeps the buffer untouched and discards the incoming
message, counting one drop. -/
theorem enqueue_nonstate_dropped_when_all_state (st : ProcSt) (level : String)
    (payload : Payload)
    (hall : ∀ x ∈ st.chan.buf, x.level = lvl_state)
    (hnot : level ≠ lvl_state)
    (hlen : st.chan.buf.length = st.chan.cap)
    (hcap : 1 ≤ st.chan.cap) :
    ∃ q, enqueue_message st level payload =
      { st with
          droppedMessages := st.droppedMessages + 1
          maxQueueDepth := q } := by
  have hfull : st.chan.isFull = true := by
    simp only [Chan.isFull]
    simp only [Bool.and_eq_true, decide_eq_true_eq]
    omega
  have hput1 : put_nowait st.chan ⟨level, payload⟩ = none := by
    simp [put_nowait, hfull]
  have hfind : List.findIdx? (fun x => x.level != lvl_state) st.chan.buf = none :=
    List.findIdx?_eq_none_iff.mpr (fun x hx => by simp [hall x hx])
  have hne : st.chan.buf.isEmpty = false := by
    rcases hb : st.chan.buf with _ | ⟨a, as⟩
    · rw [hb] at hlen; simp at hlen; omega
    · simp
  have hlvl : (level == lvl_state) = false := by
    simp [hnot]
  obtain ⟨q1, hq1⟩ := restoreMsgs_ok (st.chan.buf)
    { st with chan := ({ st.chan with buf := [] }) }
    (by
      show 0 + st.chan.buf.length ≤ st.chan.cap
      omega)
  have hdrain : drain_for_capacity st (level == lvl_state) =
      (false, { st with maxQueueDepth := q1 }) := by
    unfold drain_for_capacity
    rw [if_neg (by simp [hne])]
    rw [hfind]
    dsimp only
    rw [hlvl]
    rw [if_pos (by simp)]
    rw [hq1]
    rfl
  have hput1b : put_nowait ({ st with maxQueueDepth := q1 } : ProcSt).chan
      ⟨level, payload⟩ = none := hput1
  obtain ⟨q2, hq2⟩ := restoreMsgs_ok (st.chan.buf)
    { st with
        chan := ({ st.chan with buf := [] })
        maxQueueDepth := q1 }
    (by
      show 0 + st.chan.buf.length ≤ st.chan.cap
      omega)
  have hdrain2 : drain_for_capacity ({ st with maxQueueDepth := q1 }) (level == lvl_state) =
      (false, { st with maxQueueDepth := q2 }) := by
    unfold drain_for_capacity
    rw [show ({ st with maxQueueDepth := q1 } : ProcSt).chan.buf = st.chan.buf from rfl]
    rw [if_neg (by simp [hne])]
    rw [hfind]
    dsimp only
    rw [hlvl]
    rw [if_pos (by simp)]
    show (false, (restoreMsgs
        ({ st with
            chan := ({ st.chan with buf := [] })
            maxQueueDepth := q1 }) st.chan.buf).2) =
      (false, ({ st with maxQueueDepth := q2 } : ProcSt))
    rw [hq2]
    rfl
  unfold enqueue_message
  rw [show st.chan.buf.length + 3 = (st.chan.buf.length + 2) + 1 from rfl]
  rw [enqueue_loop_full_step st level payload 0 (st.chan.buf.length + 2) hput1]
  rw [hdrain]
  rw [if_neg (by simp)]
  show ∃ q, enqueue_loop ({ st with maxQueueDepth := q1 }) level payload 1
      ((st.chan.buf.length + 1) + 1) =
    { st with droppedMessages := st.droppedMessages + 1, maxQueueDepth := q }
  rw [enqueue_loop_full_step _ level payload 1 (st.chan.buf.length + 1) hput1b]
  rw [hdrain2]
  rw [if_pos (by simp)]
  exact ⟨q2, rfl⟩

/-- The drain loop of the service publish path splits the buffer at the
first non-state message. -/
theorem split_preserved_states_eq (m : QMsg) (suf : List QMsg)
    (hm : m.level ≠ lvl_state) (pre : List QMsg)
    (hpre : ∀ x ∈ pre, x.level = lvl_state) :
    split_preserved_states (pre ++ m :: suf) = (pre, some m, suf) := by
  induction pre with
  | nil =>
    simp only [List.nil_append, split_preserved_states]
    rw [if_neg (by simp [hm])]
  | cons a as ih =>
    have ha : a.level = lvl_state := hpre a (by simp)
    have ih2 := ih (fun x hx => hpre x (List.mem_cons_of_mem a hx))
    simp only [List.cons_append, split_preserved_states]
    rw [if_pos (by simp [ha])]
    simp [List.append_eq, ih2]

/-- Restoring preserved state messages into a channel with room appends
them all. -/
theorem restore_states_ok (msgs : List QMsg) : ∀ (c : Chan),
    c.buf.length + msgs.length ≤ c.cap →
    restore_states c msgs = { c with buf := c.buf ++ msgs } := by
  induction msgs with
  | nil => intro c h; simp [restore_states]
  | cons m rest ih =>
    intro c h
    have hnf : c.isFull = false := by
      simp only [Chan.isFull]
      simp only [Bool.and_eq_false_iff]
      right
      simp only [decide_eq_false_iff_not, not_le]
      simp only [List.length_cons] at h
      omega
    have hput : put_nowait c m = some ({ c with buf := c.buf ++ [m] }) := by
      simp [put_nowait, hnf]
    simp only [restore_states, hput]
    rw [ih ({ c with buf := c.buf ++ [m] }) (by simp at h ⊢; omega)]
    simp

/-- Publish path of the coordinator on a full channel holding a non-state
message: the oldest non-state message is evicted, every state message is
retained (the preserved run moves behind the remaining tail), and the
new terminal state message is appended. -/
theorem publish_evicts_oldest_nonstate (c : Chan) (payload : List (String × String))
    (pre suf : List QMsg) (m : QMsg)
    (hbuf : c.buf = pre ++ m :: suf)
    (hpre : ∀ x ∈ pre, x.level = lvl_state)
    (hm : m.level ≠ lvl_state)
    (hlen : c.buf.length = c.cap)
    (hcap : 1 ≤ c.cap) :
    publish_state_update c payload =
      ({ c with buf := (suf ++ pre) ++ [⟨lvl_state, Payload.stateKV payload⟩] }, true) := by
  have hlenps : pre.length + suf.length + 1 = c.cap := by
    rw [hbuf] at hlen
    simpa using hlen
  have hfull : c.isFull = true := by
    simp only [Chan.isFull]
    simp only [Bool.and_eq_true, decide_eq_true_eq]
    omega
  have hput1 : put_nowait c ⟨lvl_state, Payload.stateKV payload⟩ = none := by
    simp [put_nowait, hfull]
  have hsplit : split_preserved_states c.buf = (pre, some m, suf) := by
    rw [hbuf]
    exact split_preserved_states_eq m suf hm pre hpre
  have hrest : restore_states ({ c with buf := suf }) pre =
      { c with buf := suf ++ pre } := by
    rw [restore_states_ok pre ({ c with buf := suf }) (by simp; omega)]
  have hput2 : put_nowait ({ c with buf := suf ++ pre })
      ⟨lvl_state, Payload.stateKV payload⟩ =
      some ({ c with buf := (suf ++ pre) ++ [⟨lvl_state, Payload.stateKV payload⟩] }) := by
    have hnf : ({ c with buf := suf ++ pre } : Chan).isFull = false := by
      simp only [Chan.isFull]
      simp only [Bool.and_eq_false_iff]
      right
      simp only [decide_eq_false_iff_not, not_le]
      simp
      omega
    simp [put_nowait, hnf]
  unfold publish_state_update
  dsimp only
  rw [hput1]
  dsimp only
  rw [hsplit]
  dsimp only
  rw [hrest]
  rw [hput2]

/-- C3 counterexample: on a full channel holding a state message in front
of the oldest non-state message, the service publish path evicts the
oldest non-state entry but reinserts the preserved state run behind the
remaining tail, so the remaining entries do not keep their original
order (and no dropped-message counter exists on this path). -/
theorem C3_publish_path_reorders :
    (publish_state_update
        ⟨3, [⟨lvl_state, Payload.stateKV [("result", "pending")]⟩,
             ⟨lvl_info, Payload.text ("one")⟩,
             ⟨lvl_info, Payload.text ("two")⟩]⟩
        [("status", "finished")]).1.buf =
      [⟨lvl_info, Payload.text ("two")⟩,
       ⟨lvl_state, Payload.stateKV [("result", "pending")]⟩,
       ⟨lvl_state, Payload.stateKV [("status", "finished")]⟩]
    ∧ (publish_state_update
        ⟨3, [⟨lvl_state, Payload.stateKV [("result", "pending")]⟩,
             ⟨lvl_info, Payload.text ("one")⟩,
             ⟨lvl_info, Payload.text ("two")⟩]⟩
        [("status", "finished")]).1.buf ≠
      [⟨lvl_state, Payload.stateKV [("result", "pending")]⟩,
       ⟨lvl_info, Payload.text ("two")⟩,
       ⟨lvl_state, Payload.stateKV [("status", "finished")]⟩] := by
  decide

/-- C3 (amended): on the processor publish path, a publish into the full
channel evicts the oldest non-state entry when one exists, keeping the
rest in order and counting one drop; when the buffer is all state
messages, an incoming state message evicts the oldest state entry while
an incoming non-state message is itself discarded and counted, leaving
every buffered state message in place. On the service publish path the
same eviction choice holds, but the preserved state messages are
reinserted behind the remaining tail instead of keeping buffer order,
and no dropped-message counter is maintained. -/
theorem C3_backpressure_policy :
    (∀ (st : ProcSt) (level : String) (payload : Payload) (pre suf : List QMsg)
        (m : QMsg),
      st.chan.buf = pre ++ m :: suf →
      (∀ x ∈ pre, x.level = lvl_state) →
      m.level ≠ lvl_state →
      st.chan.buf.length = st.chan.cap →
      1 ≤ st.chan.cap →
      ∃ q, enqueue_message st level payload =
        { st with
            chan := ({ st.chan with buf := (pre ++ suf) ++ [⟨level, payload⟩] })
            droppedMessages := st.droppedMessages + 1
            maxQueueDepth := q })
    ∧ (∀ (st : ProcSt) (payload : Payload),
      (∀ x ∈ st.chan.buf, x.level = lvl_state) →
      st.chan.buf.length = st.chan.cap →
      1 ≤ st.chan.cap →
      ∃ q, enqueue_message st lvl_state payload =
        { st with
            chan := ({ st.chan with
              buf := st.chan.buf.tail ++ [⟨lvl_state, payload⟩] })
            droppedMessages := st.droppedMessages + 1
            maxQueueDepth := q })
    ∧ (∀ (st : ProcSt) (level : String) (payload : Payload),
      (∀ x ∈ st.chan.buf, x.level = lvl_state) →
      level ≠ lvl_state →
      st.chan.buf.length = st.chan.cap →
      1 ≤ st.chan.cap →
      ∃ q, enqueue_message st level payload =
        { st with
            droppedMessages := st.droppedMessages + 1
            maxQueueDepth := q })
    ∧ (∀ (c : Chan) (payload : List (String × String)) (pre suf : List QMsg)
        (m : QMsg),
      c.buf = pre ++ m :: suf →
      (∀ x ∈ pre, x.level = lvl_state) →
      m.level ≠ lvl_state →
      c.buf.length = c.cap →
      1 ≤ c.cap →
      publish_state_update c payload =
        ({ c with buf := (suf ++ pre) ++ [⟨lvl_state, Payload.stateKV payload⟩] },
          true)) := by
  refine ⟨?_, ?_, ?_, ?_⟩
  · intro st level payload pre suf m hbuf hpre hm hlen hcap
    exact enqueue_drop_oldest_nonstate st level payload pre suf m hbuf hpre hm hlen hcap
  · intro st payload hall hlen hcap
    exact enqueue_state_evicts_oldest_state st payload hall hlen hcap
  · intro st level payload hall hnot hlen hcap
    exact enqueue_nonstate_dropped_when_all_state st level payload hall hnot hlen hcap
  · intro c payload pre suf m hbuf hpre hm hlen hcap
    exact publish_evicts_oldest_nonstate c payload pre suf m hbuf hpre hm hlen hcap

/-- Witness for C3: a concrete full channel with an info message in front
evicts that message, keeps order and counts the drop. -/
theorem C3_backpressure_policy_witness :
    (enqueue_message
        ⟨⟨2, [⟨lvl_info, Payload.text ("old")⟩,
              ⟨lvl_state, Payload.stateKV [("result", "pending")]⟩]⟩,
          [], [], none, 0, none, 0, 0, 0⟩
        lvl_warning (Payload.text ("w"))).chan.buf =
      [⟨lvl_state, Payload.stateKV [("result", "pending")]⟩,
       ⟨lvl_warning, Payload.text ("w")⟩]
    ∧ (enqueue_message
        ⟨⟨2, [⟨lvl_info, Payload.text ("old")⟩,
              ⟨lvl_state, Payload.stateKV [("result", "pending")]⟩]⟩,
          [], [], none, 0, none, 0, 0, 0⟩
        lvl_warning (Payload.text ("w"))).droppedMessages = 1 := by
  obtain ⟨q, hq⟩ := C3_backpressure_policy.1
    ⟨⟨2, [⟨lvl_info, Payload.text ("old")⟩,
          ⟨lvl_state, Payload.stateKV [("result", "pending")]⟩]⟩,
      [], [], none, 0, none, 0, 0, 0⟩
    lvl_warning (Payload.text ("w"))
    [] [⟨lvl_state, Payload.stateKV [("result", "pending")]⟩]
    ⟨lvl_info, Payload.text ("old")⟩
    rfl (by simp) (by decide) rfl (by decide)
  rw [hq]
  exact ⟨rfl, rfl⟩

/-- Specification-side per-file step of the scanner with the extension
test removed: every candidate surviving the output-path and
already-seen checks qualifies. Used to state that a wildcard token in
inclusion mode admits every candidate file. -/
def walk_files_any_extension (env : Env) (cfg : ScanCfg) (processed : List String)
    (root : String) (names : List String) (ws : WalkSt) : Except Nat WalkSt :=
  match names with
  | [] => Except.ok ws
  | file_name :: rest =>
    if is_cancelled env ws.polls then Except.error (ws.polls + 1)
    else
      let ws := { ws with polls := ws.polls + 1 }
      let file_path := joinPath root file_name
      if env.abspath file_path == cfg.output_file_abs then
        walk_files_any_extension env cfg processed root rest ws
      else if processed.contains file_path || ws.seen.contains file_path then
        walk_files_any_extension env cfg processed root rest ws
      else
        walk_files_any_extension env cfg processed root rest
          { ws with seen := ws.seen ++ [file_path], acc := ws.acc ++ [file_path] }

/-- Specification-side walk built on the extension-free per-file step. -/
def walk_loop_any_extension (env : Env) (cfg : ScanCfg) (processed : List String)
    (ws : WalkSt) : List (String × FSDir) → Nat → Except Nat WalkSt
  | _, 0 => Except.ok ws
  | [], _ + 1 => Except.ok ws
  | (root, d) :: rest, fuel + 1 =>
    if is_cancelled env ws.polls then Except.error (ws.polls + 1)
    else
      let ws := { ws with polls := ws.polls + 1 }
      let mutable_dirs := prune_hidden cfg.include_hidden (d.subdirs.map FSDir.dname)
      let mutable_files := prune_hidden cfg.include_hidden d.files
      let filtered_dirs := prune_excluded env cfg.exclude_folders mutable_dirs
      let filtered_files := prune_excluded env cfg.exclude_files mutable_files
      let kept := d.subdirs.filter (fun s => filtered_dirs.contains s.dname)
      match walk_files_any_extension env cfg processed root filtered_files ws with
      | Except.error p => Except.error p
      | Except.ok ws =>
        walk_loop_any_extension env cfg processed ws
          ((kept.map (fun s => (joinPath root s.dname, s))) ++ rest) fuel

/-- Under a wildcard token in inclusion mode the per-file step admits
every candidate, so it coincides with the extension-free step. -/
theorem walk_files_inclusion_wildcard (env : Env) (cfg : ScanCfg)
    (processed : List String) (root : String)
    (hmode : cfg.mode = "inclusion") (hw : cfg.has_wildcard = true) :
    ∀ (names : List String) (ws : WalkSt),
      walk_files env cfg processed root names ws =
        walk_files_any_extension env cfg processed root names ws := by
  intro names
  induction names with
  | nil => intro ws; rfl
  | cons file_name rest ih =>
    intro ws
    simp only [walk_files, walk_files_any_extension]
    split
    · rfl
    · split
      · exact ih _
      · split
        · exact ih _
        · rw [show should_process_ext cfg.mode cfg.has_wildcard
              cfg.normalized_extensions (strLower (splitext_ext file_name)) = true by
            simp [should_process_ext, hmode, hw]]
          simp only [if_true]
          exact ih _

/-- Under a wildcard token in inclusion mode the whole walk coincides
with the extension-free walk. -/
theorem walk_loop_inclusion_wildcard (env : Env) (cfg : ScanCfg)
    (processed : List String)
    (hmode : cfg.mode = "inclusion") (hw : cfg.has_wildcard = true) :
    ∀ (fuel : Nat) (pending : List (String × FSDir)) (ws : WalkSt),
      walk_loop env cfg processed ws pending fuel =
        walk_loop_any_extension env cfg processed ws pending fuel := by
  intro fuel
  induction fuel with
  | zero => intro pending ws; cases pending <;> rfl
  | succ fuel ih =>
    intro pending ws
    cases pending with
    | nil => rfl
    | cons hd rest =>
      cases hd with
      | mk root d =>
        simp only [walk_loop, walk_loop_any_extension]
        split
        · rfl
        · rw [walk_files_inclusion_wildcard env cfg processed root hmode hw]
          cases walk_files_any_extension env cfg processed root
              (prune_excluded env cfg.exclude_files
                (prune_hidden cfg.include_hidden d.files))
              ({ ws with polls := ws.polls + 1 }) with
          | error p => rfl
          | ok ws2 => exact ih _ _

/-- Under a wildcard token in exclusion mode the per-file step admits
nothing: the accumulator and seen set never grow. -/
theorem walk_files_exclusion_wildcard (env : Env) (cfg : ScanCfg)
    (processed : List String) (root : String)
    (hmode : cfg.mode = "exclusion") (hw : cfg.has_wildcard = true) :
    ∀ (names : List String) (ws ws2 : WalkSt),
      walk_files env cfg processed root names ws = Except.ok ws2 →
      ws2.acc = ws.acc ∧ ws2.seen = ws.seen := by
  intro names
  induction names with
  | nil =>
    intro ws ws2 h
    simp only [walk_files] at h
    injection h with h
    rw [h]
    exact ⟨rfl, rfl⟩
  | cons file_name rest ih =>
    intro ws ws2 h
    simp only [walk_files] at h
    split at h
    · exact absurd h (by simp)
    · split at h
      · have hh := ih _ _ h
        exact ⟨hh.1.trans rfl, hh.2.trans rfl⟩
      · split at h
        · have hh := ih _ _ h
          exact ⟨hh.1.trans rfl, hh.2.trans rfl⟩
        · rw [show should_process_ext cfg.mode cfg.has_wildcard
              cfg.normalized_extensions (strLower (splitext_ext file_name)) = false by
            simp [should_process_ext, hmode, hw]] at h
          simp only [Bool.false_eq_true, if_false] at h
          have hh := ih _ _ h
          exact ⟨hh.1.trans rfl, hh.2.trans rfl⟩

/-- Under a wildcard token in exclusion mode the whole walk yields no
eligible path. -/
theorem walk_loop_exclusion_wildcard (env : Env) (cfg : ScanCfg)
    (processed : List String)
    (hmode : cfg.mode = "exclusion") (hw : cfg.has_wildcard = true) :
    ∀ (fuel : Nat) (pending : List (String × FSDir)) (ws ws2 : WalkSt),
      walk_loop env cfg processed ws pending fuel = Except.ok ws2 →
      ws2.acc = ws.acc := by
  intro fuel
  induction fuel with
  | zero =>
    intro pending ws ws2 h
    cases pending with
    | nil => injection h with h; rw [h]
    | cons hd rest => injection h with h; rw [h]
  | succ fuel ih =>
    intro pending ws ws2 h
    cases pending with
    | nil => injection h with h; rw [h]
    | cons hd rest =>
      cases hd with
      | mk root d =>
        simp only [walk_loop] at h
        split at h
        · exact absurd h (by simp)
        · rcases hwf : walk_files env cfg processed root
              (prune_excluded env cfg.exclude_files
                (prune_hidden cfg.include_hidden d.files))
              ({ ws with polls := ws.polls + 1 }) with p | ws3
          · rw [hwf] at h
            exact absurd h (by simp)
          · rw [hwf] at h
            have hfiles := walk_files_exclusion_wildcard env cfg processed root hmode hw
              _ _ _ hwf
            have hrec := ih _ _ _ h
            rw [hrec, hfiles.1]

/-- C7: with a wildcard token among the extensions, the inclusion-mode
extension test admits every file whatever its extension, and the whole
inclusion-mode walk coincides with the extension-free candidate walk;
in exclusion mode a wildcard token makes the eligible set empty. -/
theorem C7_wildcard_extension_modes :
    (∀ (normalized_extensions : List String) (file_ext_lower : String),
      should_process_ext ("inclusion") true normalized_extensions file_ext_lower = true)
    ∧ (∀ (env : Env) (folder_path : String) (tree : FSDir) (include_hidden : Bool)
        (extensions exclude_files exclude_folders : List String)
        (output_file_abs : String) (processed : List String) (polls : Nat),
      extensions.any (fun e => wildcard_tokens.contains e) = true →
      iter_eligible_file_paths env folder_path tree ("inclusion") include_hidden
          extensions exclude_files exclude_folders output_file_abs processed polls =
        (match walk_loop_any_extension env
            ⟨"inclusion", include_hidden,
              (extensions.filter (fun e => !wildcard_tokens.contains e)).map strLower,
              true, exclude_files, exclude_folders, output_file_abs⟩
            processed ⟨[], [], polls⟩ [(folder_path, tree)] (fsdirSize tree + 1) with
          | Except.error p => Except.error p
          | Except.ok ws => Except.ok (ws.acc, ws.polls)))
    ∧ (∀ (env : Env) (folder_path : String) (tree : FSDir) (include_hidden : Bool)
        (extensions exclude_files exclude_folders : List String)
        (output_file_abs : String) (processed : List String) (polls : Nat)
        (paths : List String) (p2 : Nat),
      extensions.any (fun e => wildcard_tokens.contains e) = true →
      iter_eligible_file_paths env folder_path tree ("exclusion") include_hidden
          extensions exclude_files exclude_folders output_file_abs processed polls =
        Except.ok (paths, p2) →
      paths = []) := by
  refine ⟨?_, ?_, ?_⟩
  · intro normalized_extensions file_ext_lower
    simp [should_process_ext]
  · intro env folder_path tree include_hidden extensions exclude_files exclude_folders
      output_file_abs processed polls hw
    unfold iter_eligible_file_paths
    dsimp only
    rw [hw]
    rw [walk_loop_inclusion_wildcard env
      ⟨"inclusion", include_hidden,
        (extensions.filter (fun e => !wildcard_tokens.contains e)).map strLower,
        true, exclude_files, exclude_folders, output_file_abs⟩
      processed rfl rfl]
  · intro env folder_path tree include_hidden extensions exclude_files exclude_folders
      output_file_abs processed polls paths p2 hw hiter
    unfold iter_eligible_file_paths at hiter
    dsimp only at hiter
    rw [hw] at hiter
    rcases hwalk : walk_loop env
        ⟨"exclusion", include_hidden,
          (extensions.filter (fun e => !wildcard_tokens.contains e)).map strLower,
          true, exclude_files, exclude_folders, output_file_abs⟩
        processed ⟨[], [], polls⟩ [(folder_path, tree)] (fsdirSize tree + 1) with p | ws
    · rw [hwalk] at hiter
      exact absurd hiter (by simp)
    · rw [hwalk] at hiter
      have hacc := walk_loop_exclusion_wildcard env
        ⟨"exclusion", include_hidden,
          (extensions.filter (fun e => !wildcard_tokens.contains e)).map strLower,
          true, exclude_files, exclude_folders, output_file_abs⟩
        processed rfl rfl _ _ _ _ hwalk
      injection hiter with hiter
      have hp : paths = ws.acc := congrArg Prod.fst hiter.symm
      rw [hp, hacc]

/-- Witness for C7: a concrete exclusion-mode run with the star token
over a one-file tree yields no eligible path. -/
theorem C7_wildcard_extension_modes_witness :
    (["*"] : List String).any (fun e => wildcard_tokens.contains e) = true
    ∧ ([] : List String) = [] :=
  ⟨by decide,
    C7_wildcard_extension_modes.2.2
      ⟨fun _ => ⟨false, false, false, 0, [], fun _ _ => ReadEvent.ok⟩,
        fun _ => "", fun p => p, fun p => p, fun _ _ => false, none, false⟩
      "r" (FSDir.mk "r" ["a.txt"] []) false ["*"] [] [] ("out.txt") [] 0 [] 2
      (by decide) (by rfl)⟩

/-- Lookup right after an assignment returns the assigned value. -/
theorem lookupKV_setKV_self {α : Type} (d : List (String × α)) (k : String) (v : α) :
    lookupKV (setKV d k v) k = some v := by
  induction d with
  | nil => simp [setKV, lookupKV]
  | cons p rest ih =>
    cases p with
    | mk k0 v0 =>
      by_cases hk : k0 == k
      · simp [setKV, lookupKV, hk]
      · simp only [setKV, lookupKV, hk]
        simp only [Bool.false_eq_true, if_false]
        exact ih

/-- The summary update stores the per-file record under the path key
whenever the extension slot is absent or holds a statistics row. -/
theorem update_summary_records_file (st : ProcSt) (file_ext file_path : String)
    (fsz : Nat) (fh : String)
    (hsum : lookupKV st.summary file_ext = none ∨
      ∃ s, lookupKV st.summary file_ext = some (SumVal.extStat s)) :
    lookupKV (update_extraction_summary st file_ext file_path fsz fh).summary
      file_path = some (SumVal.fileRec fsz fh file_ext) := by
  unfold update_extraction_summary
  rcases hsum with h | ⟨s, h⟩
  · rw [h]
    dsimp only
    rw [lookupKV_setKV_self]
    dsimp only
    exact lookupKV_setKV_self _ _ _
  · rw [h]
    dsimp only
    rw [h]
    dsimp only
    exact lookupKV_setKV_self _ _ _

/-- C10: an eligible empty file still gets its header line followed
immediately by the three-newline separator, is reported as processed,
consumes one cancellation poll, and is recorded in the summary with the
hash of empty content; the header uses the normalised path. -/
theorem C10_empty_file_writes_header_and_separator (env : Env) (path : String)
    (st : ProcSt) (out : List Char) (polls : Nat)
    (hex : (env.readFile path).fexists = true)
    (hrd : (env.readFile path).readable = true)
    (hct : (env.readFile path).content = [])
    (hev : (env.readFile path).readEvent 0 0 = ReadEvent.ok)
    (hcan : env.cancelAt = none)
    (hcap : st.maxFileSizeBytes = none)
    (hsum : lookupKV st.summary (splitext_ext path) = none ∨
      ∃ s, lookupKV st.summary (splitext_ext path) = some (SumVal.extStat s)) :
    (process_file env path st out polls).res = Except.ok true
    ∧ (process_file env path st out polls).out =
        (out ++ ((env.normpath path).toList ++ [':', '\n'])) ++ sepChars
    ∧ (process_file env path st out polls).polls = polls + 1
    ∧ lookupKV (process_file env path st out polls).st.summary path =
        some (SumVal.fileRec (env.readFile path).fsize (env.shaHex [])
          (splitext_ext path)) := by
  have hcancel : is_cancelled env polls = false := by simp [is_cancelled, hcan]
  have hstream : stream_file_contents env (env.readFile path) 0 (env.normpath path)
      CHUNK_SIZE out polls =
      ⟨Except.ok (env.shaHex []),
        (out ++ ((env.normpath path).toList ++ [':', '\n'])) ++ sepChars,
        polls + 1⟩ := by
    unfold stream_file_contents
    rw [hct]
    simp only [List.length_nil, Nat.zero_add]
    unfold stream_loop
    rw [hcancel]
    simp only [Bool.false_eq_true, if_false]
    rw [hev]
    simp only [List.take_nil, List.isEmpty_nil, if_true]
  have hretry : retry_loop env (env.readFile path) (env.normpath path) path out.length
      CHUNK_SIZE 0 st out polls (CHUNK_SIZE + 2) =
      (AttemptRes.okHash (env.shaHex []), st,
        (out ++ ((env.normpath path).toList ++ [':', '\n'])) ++ sepChars,
        polls + 1) := by
    rw [show CHUNK_SIZE + 2 = (CHUNK_SIZE + 1) + 1 from rfl]
    unfold retry_loop
    rw [hstream]
  have hpf : process_file env path st out polls =
      ⟨Except.ok true,
        update_extraction_summary st (splitext_ext path) path
          (env.readFile path).fsize (env.shaHex []),
        (out ++ ((env.normpath path).toList ++ [':', '\n'])) ++ sepChars,
        polls + 1⟩ := by
    unfold process_file
    dsimp only
    rw [hex, hrd]
    simp only [Bool.not_true, Bool.false_eq_true, if_false]
    rw [hcap]
    dsimp only
    rw [hretry]
  rw [hpf]
  refine ⟨rfl, rfl, rfl, ?_⟩
  exact update_summary_records_file st (splitext_ext path) path
    (env.readFile path).fsize (env.shaHex []) hsum

/-- Witness for C10: a concrete empty file under an identity-path
environment. -/
theorem C10_empty_file_writes_header_and_separator_witness :
    (process_file
        ⟨fun _ => ⟨true, true, true, 0, [], fun _ _ => ReadEvent.ok⟩,
          fun _ => "emptyhash", fun p => p, fun p => p, fun _ _ => false, none, false⟩
        "d/a.txt" ⟨⟨4, []⟩, [], [], none, 0, none, 0, 0, 0⟩ [] 0).res = Except.ok true
    ∧ (process_file
        ⟨fun _ => ⟨true, true, true, 0, [], fun _ _ => ReadEvent.ok⟩,
          fun _ => "emptyhash", fun p => p, fun p => p, fun _ _ => false, none, false⟩
        "d/a.txt" ⟨⟨4, []⟩, [], [], none, 0, none, 0, 0, 0⟩ [] 0).out =
      (([] : List Char) ++ ("d/a.txt".toList ++ [':', '\n'])) ++ sepChars :=
  ⟨(C10_empty_file_writes_header_and_separator
      ⟨fun _ => ⟨true, true, true, 0, [], fun _ _ => ReadEvent.ok⟩,
        fun _ => "emptyhash", fun p => p, fun p => p, fun _ _ => false, none, false⟩
      "d/a.txt" ⟨⟨4, []⟩, [], [], none, 0, none, 0, 0, 0⟩ [] 0
      rfl rfl rfl rfl rfl rfl (Or.inl rfl)).1,
    (C10_empty_file_writes_header_and_separator
      ⟨fun _ => ⟨true, true, true, 0, [], fun _ _ => ReadEvent.ok⟩,
        fun _ => "emptyhash", fun p => p, fun p => p, fun _ _ => false, none, false⟩
      "d/a.txt" ⟨⟨4, []⟩, [], [], none, 0, none, 0, 0, 0⟩ [] 0
      rfl rfl rfl rfl rfl rfl (Or.inl rfl)).2.1⟩

/-- Streaming only ever appends to the output handle. -/
theorem stream_loop_appends (env : Env) (fv : FileView) (attempt : Nat)
    (hdr : List Char) (chunk_size : Nat) :
    ∀ (fuel : Nat) (remaining : List Char) (ci : Nat) (hwr : Bool)
      (hacc out : List Char) (polls : Nat),
      ∃ w, (stream_loop env fv attempt hdr chunk_size remaining ci hwr hacc out polls
        fuel).out = out ++ w := by
  intro fuel
  induction fuel with
  | zero =>
    intro remaining ci hwr hacc out polls
    exact ⟨[], by simp [stream_loop]⟩
  | succ fuel ih =>
    intro remaining ci hwr hacc out polls
    unfold stream_loop
    by_cases hc : is_cancelled env polls = true
    · rw [if_pos hc]
      exact ⟨[], by simp⟩
    · rw [if_neg hc]
      dsimp only
      cases hev : fv.readEvent attempt ci with
      | memoryError => exact ⟨[], by simp⟩
      | decodeError => exact ⟨[], by simp⟩
      | ok =>
        dsimp only
        by_cases hemp : (remaining.take chunk_size).isEmpty = true
        · rw [if_pos hemp]
          refine ⟨(if hwr then [] else hdr) ++ sepChars, ?_⟩
          cases hwr <;> simp
        · rw [if_neg hemp]
          obtain ⟨w, hw2⟩ := ih (remaining.drop chunk_size) (ci + 1) true
            (hacc ++ remaining.take chunk_size)
            ((if hwr then out else out ++ hdr) ++ remaining.take chunk_size) (polls + 1)
          refine ⟨(if hwr then [] else hdr) ++ remaining.take chunk_size ++ w, ?_⟩
          rw [hw2]
          cases hwr <;> simp
/-- One streaming attempt only ever appends to the output handle. -/
theorem stream_file_contents_appends (env : Env) (fv : FileView) (attempt : Nat)
    (np : String) (chunk_size : Nat) (out : List Char) (polls : Nat) :
    ∃ w, (stream_file_contents env fv attempt np chunk_size out polls).out =
      out ++ w := by
  unfold stream_file_contents
  exact stream_loop_appends env fv attempt (np.toList ++ [':', '\n']) chunk_size
    (fv.content.length + 1) fv.content 0 false [] out polls

/-- The retry loop, entered with the recorded start position equal to the
length of the current output, hands back an untouched output on a skip
and an output whose prefix of the start length is the original output on
a cancellation. -/
theorem retry_loop_rollback (env : Env) (fv : FileView) (np fp : String) :
    ∀ (fuel : Nat) (chunk_size attempt : Nat) (st : ProcSt) (out : List Char)
      (polls : Nat) (res : AttemptRes) (st2 : ProcSt) (out2 : List Char) (polls2 : Nat),
      retry_loop env fv np fp out.length chunk_size attempt st out polls fuel =
        (res, st2, out2, polls2) →
      (res = AttemptRes.cancelledE → out2.take out.length = out)
      ∧ (res = AttemptRes.skippedE → out2 = out) := by
  intro fuel
  induction fuel with
  | zero =>
    intro chunk_size attempt st out polls res st2 out2 polls2 h
    simp only [retry_loop, Prod.mk.injEq] at h
    obtain ⟨hres, hst, hout, hpolls⟩ := h
    constructor
    · intro hc
      exact absurd (hres.trans hc) (by simp)
    · intro hs
      exact hout.symm
  | succ fuel ih =>
    intro chunk_size attempt st out polls res st2 out2 polls2 h
    unfold retry_loop at h
    dsimp only at h
    obtain ⟨w, hwapp⟩ := stream_file_contents_appends env fv attempt np chunk_size
      out polls
    split at h
    · simp only [Prod.mk.injEq] at h
      obtain ⟨hres, hst, hout, hpolls⟩ := h
      constructor
      · intro hc
        exact absurd (hres.trans hc) (by simp)
      · intro hs
        exact absurd (hres.trans hs) (by simp)
    · simp only [Prod.mk.injEq] at h
      obtain ⟨hres, hst, hout, hpolls⟩ := h
      constructor
      · intro hc
        rw [← hout, hwapp, List.take_left]
      · intro hs
        exact absurd (hres.trans hs) (by simp)
    · simp only [Prod.mk.injEq] at h
      obtain ⟨hres, hst, hout, hpolls⟩ := h
      constructor
      · intro hc
        exact absurd (hres.trans hc) (by simp)
      · intro hs
        exact absurd (hres.trans hs) (by simp)
    · split at h
      · simp only [Prod.mk.injEq] at h
        obtain ⟨hres, hst, hout, hpolls⟩ := h
        constructor
        · intro hc
          exact absurd (hres.trans hc) (by simp)
        · intro hs
          rw [← hout, hwapp, List.take_left]
      · rw [show (stream_file_contents env fv attempt np chunk_size out polls).out.take
            out.length = out by rw [hwapp, List.take_left]] at h
        exact ih _ _ _ _ _ _ _ _ _ h

/-- A cancellation or skip escaping process_file hands back the output
exactly as it was before the file began. -/
theorem process_file_exc_rollback (env : Env) (path : String) (st : ProcSt)
    (out : List Char) (polls : Nat) (e : PfExc) (st2 : ProcSt) (out2 : List Char)
    (polls2 : Nat)
    (h : process_file env path st out polls = ⟨Except.error e, st2, out2, polls2⟩) :
    out2 = out := by
  unfold process_file at h
  dsimp only at h
  split at h
  · exact absurd (congrArg PfRes.res h) (by simp)
  · split at h
    · exact absurd (congrArg PfRes.res h) (by simp)
    · split at h
      · exact absurd (congrArg PfRes.res h) (by simp)
      · next st3 out3 polls3 heq =>
        have hro := retry_loop_rollback env (env.readFile path) (env.normpath path)
          path (CHUNK_SIZE + 2) CHUNK_SIZE 0 _ out polls _ _ _ _ heq
        have hout2 : out2 = out3.take out.length := (congrArg PfRes.out h).symm
        rw [hout2]
        exact hro.1 rfl
      · next st3 out3 polls3 heq =>
        have hro := retry_loop_rollback env (env.readFile path) (env.normpath path)
          path (CHUNK_SIZE + 2) CHUNK_SIZE 0 _ out polls _ _ _ _ heq
        have hout2 : out2 = out3.take out.length := (congrArg PfRes.out h).symm
        rw [hout2, hro.2 rfl, List.take_length]
      · exact absurd (congrArg PfRes.res h) (by simp)

/-- A cancelled traversal loop leaves the output exactly as some fully
completed prefix of the path list left it. -/
theorem paths_loop_cancel_prefix (env : Env) (total : Int) :
    ∀ (paths : List String) (pc sc : Nat) (cb cb2 : List (Int × Int)) (w w2 : WSt),
      process_paths_loop env total paths pc sc cb w = Except.error (cb2, w2) →
      ∃ (k : Nat) (pc2 sc2 : Nat) (cb3 : List (Int × Int)) (w3 : WSt),
        process_paths_loop env total (paths.take k) pc sc cb w =
          Except.ok (pc2, sc2, cb3, w3)
        ∧ w2.out = w3.out := by
  intro paths
  induction paths with
  | nil =>
    intro pc sc cb cb2 w w2 h
    exact absurd h (by simp [process_paths_loop])
  | cons p rest ih =>
    intro pc sc cb cb2 w w2 h
    unfold process_paths_loop at h
    split at h
    · next st3 out3 polls3 heq =>
      obtain ⟨k, pc2, sc2, cb3, w3, hok, hout⟩ := ih _ _ _ _ _ _ h
      refine ⟨k + 1, pc2, sc2, cb3, w3, ?_, hout⟩
      rw [List.take_succ_cons]
      unfold process_paths_loop
      rw [heq]
      exact hok
    · next st3 out3 polls3 heq =>
      have hw2 : w2 = ⟨st3, out3, polls3⟩ := by
        injection h with h2
        exact (congrArg Prod.snd h2).symm
      refine ⟨0, pc, sc, cb, w, by simp [process_paths_loop], ?_⟩
      rw [hw2]
      exact process_file_exc_rollback env p w.st w.out w.polls PfExc.cancelled
        st3 out3 polls3 heq
    · next st3 out3 polls3 heq =>
      obtain ⟨k, pc2, sc2, cb3, w3, hok, hout⟩ := ih _ _ _ _ _ _ h
      refine ⟨k + 1, pc2, sc2, cb3, w3, ?_, hout⟩
      rw [List.take_succ_cons]
      unfold process_paths_loop
      rw [heq]
      exact hok
    · next st3 out3 polls3 heq =>
      obtain ⟨k, pc2, sc2, cb3, w3, hok, hout⟩ := ih _ _ _ _ _ _ h
      refine ⟨k + 1, pc2, sc2, cb3, w3, ?_, hout⟩
      rw [List.take_succ_cons]
      unfold process_paths_loop
      rw [heq]
      exact hok

/-- C5: when cancellation is observed while a file is being processed,
the output handle is rolled back to the position recorded before that
file began (so no partial fragment of it remains); at the traversal
level a cancelled run leaves the artifact exactly as some fully
completed prefix of the eligible files left it, and the terminal state
payload of such a run reports result cancelled. -/
theorem C5_cancellation_rolls_back_in_flight_file :
    (∀ (env : Env) (path : String) (st : ProcSt) (out : List Char) (polls : Nat)
        (e : PfExc) (st2 : ProcSt) (out2 : List Char) (polls2 : Nat),
      process_file env path st out polls = ⟨Except.error e, st2, out2, polls2⟩ →
      out2 = out)
    ∧ (∀ (env : Env) (total : Int) (paths : List String) (pc sc : Nat)
        (cb cb2 : List (Int × Int)) (w w2 : WSt),
      process_paths_loop env total paths pc sc cb w = Except.error (cb2, w2) →
      ∃ (k : Nat) (pc2 sc2 : Nat) (cb3 : List (Int × Int)) (w3 : WSt),
        process_paths_loop env total (paths.take k) pc sc cb w =
          Except.ok (pc2, sc2, cb3, w3)
        ∧ w2.out = w3.out)
    ∧ lookupKV (state_payload_for RunOutcome.cancelled) ("result") =
        some ("cancelled") := by
  refine ⟨?_, ?_, rfl⟩
  · intro env path st out polls e st2 out2 polls2 h
    exact process_file_exc_rollback env path st out polls e st2 out2 polls2 h
  · intro env total paths pc sc cb cb2 w w2 h
    exact paths_loop_cancel_prefix env total paths pc sc cb cb2 w w2 h

/-- Witness for C5: a concrete file whose processing is cancelled on the
first poll leaves the previously written output untouched. -/
theorem C5_cancellation_rolls_back_in_flight_file_witness :
    process_file
        ⟨fun _ => ⟨true, true, true, 1, ['x'], fun _ _ => ReadEvent.ok⟩,
          fun _ => "h", fun p => p, fun p => p, fun _ _ => false, some 0, false⟩
        "f.txt" ⟨⟨4, []⟩, [], [], none, 0, none, 0, 0, 0⟩ ['A', 'B'] 0 =
      ⟨Except.error PfExc.cancelled, ⟨⟨4, []⟩, [], [], none, 0, none, 0, 0, 0⟩,
        ['A', 'B'], 1⟩
    ∧ (['A', 'B'] : List Char) = ['A', 'B'] :=
  ⟨rfl,
    C5_cancellation_rolls_back_in_flight_file.1
      ⟨fun _ => ⟨true, true, true, 1, ['x'], fun _ _ => ReadEvent.ok⟩,
        fun _ => "h", fun p => p, fun p => p, fun _ _ => false, some 0, false⟩
      "f.txt" ⟨⟨4, []⟩, [], [], none, 0, none, 0, 0, 0⟩ ['A', 'B'] 0
      PfExc.cancelled ⟨⟨4, []⟩, [], [], none, 0, none, 0, 0, 0⟩ ['A', 'B'] 1 rfl⟩

/-- Under persistent memory pressure every streaming attempt fails on its
first read, leaving output and polls one step further. -/
theorem stream_always_memory (env : Env) (path : String)
    (hev : ∀ a i, (env.readFile path).readEvent a i = ReadEvent.memoryError)
    (hcan : env.cancelAt = none) :
    ∀ (attempt cs : Nat) (o : List Char) (p : Nat),
      stream_file_contents env (env.readFile path) attempt (env.normpath path) cs o p =
        ⟨Except.error StreamExc.memory, o, p + 1⟩ := by
  intro attempt cs o p
  unfold stream_file_contents
  unfold stream_loop
  rw [show is_cancelled env p = false from by simp [is_cancelled, hcan]]
  simp only [Bool.false_eq_true, if_false]
  rw [hev attempt 0]

/-- One step of the retry loop under persistent memory pressure: roll
back, halve with the floor, and either skip at the floor or retry. -/
theorem retry_step_memory (env : Env) (path : String) (out : List Char)
    (hev : ∀ a i, (env.readFile path).readEvent a i = ReadEvent.memoryError)
    (hcan : env.cancelAt = none) :
    ∀ (cs attempt : Nat) (stA : ProcSt) (p fuel : Nat),
      retry_loop env (env.readFile path) (env.normpath path) path out.length cs attempt
          stA out p (fuel + 1) =
        (if max 1024 (cs / 2) == cs then
          (AttemptRes.skippedE,
            enqueue_message stA lvl_error (Payload.text (msg_skipped_memory path)),
            out, p + 1)
        else
          retry_loop env (env.readFile path) (env.normpath path) path out.length
            (max 1024 (cs / 2)) (attempt + 1)
            (enqueue_message stA lvl_warning
              (Payload.text (msg_memory_pressure path (max 1024 (cs / 2)))))
            out (p + 1) fuel) := by
  intro cs attempt stA p fuel
  conv_lhs => unfold retry_loop
  rw [stream_always_memory env path hev hcan attempt cs out p]
  dsimp only
  rw [List.take_length]

/-- C6: a file on which every streaming attempt raises memory pressure is
retried with chunk sizes halved from 8192 down to the 1024 floor (one
warning per retry), then permanently skipped with an error report; the
output handle is exactly as before, and the processor state records
nothing about the file beyond the four messages. On a concrete one-file
run the run still completes normally with skipped_files one,
processed_files zero and the file absent from the output artifact. -/
theorem C6_persistent_memory_pressure_skips_file :
    (∀ (env : Env) (path : String) (st : ProcSt) (out : List Char) (polls : Nat),
      (env.readFile path).fexists = true →
      (env.readFile path).readable = true →
      (∀ a i, (env.readFile path).readEvent a i = ReadEvent.memoryError) →
      env.cancelAt = none →
      st.maxFileSizeBytes = none →
      process_file env path st out polls =
        ⟨Except.error PfExc.skipped,
          enqueue_message (enqueue_message (enqueue_message (enqueue_message st
            lvl_warning (Payload.text (msg_memory_pressure path 4096)))
            lvl_warning (Payload.text (msg_memory_pressure path 2048)))
            lvl_warning (Payload.text (msg_memory_pressure path 1024)))
            lvl_error (Payload.text (msg_skipped_memory path)),
          out, polls + 4⟩)
    ∧ (extract_files
        ⟨fun p => if p == "r/huge.txt" then
            ⟨true, true, true, 7, "payload".toList, fun _ _ => ReadEvent.memoryError⟩
          else ⟨false, false, false, 0, [], fun _ _ => ReadEvent.ok⟩,
          fun _ => "hh", fun p => p, fun p => p, fun _ _ => false, none, false⟩
        "r" (FSDir.mk "r" ["huge.txt"] []) "inclusion" false [".txt"] [] []
        ("out.txt") ⟨⟨32, []⟩, [], [], none, 0, none, 0, 0, 0⟩ 0).res = Except.ok ()
    ∧ ((extract_files
        ⟨fun p => if p == "r/huge.txt" then
            ⟨true, true, true, 7, "payload".toList, fun _ _ => ReadEvent.memoryError⟩
          else ⟨false, false, false, 0, [], fun _ _ => ReadEvent.ok⟩,
          fun _ => "hh", fun p => p, fun p => p, fun _ _ => false, none, false⟩
        "r" (FSDir.mk "r" ["huge.txt"] []) "inclusion" false [".txt"] [] []
        ("out.txt") ⟨⟨32, []⟩, [], [], none, 0, none, 0, 0, 0⟩ 0).st.lastRunMetrics).map
        (fun m => (m.processed_files, m.skipped_files, m.total_files,
          m.total_files_known)) = some (0, 1, 1, true)
    ∧ (extract_files
        ⟨fun p => if p == "r/huge.txt" then
            ⟨true, true, true, 7, "payload".toList, fun _ _ => ReadEvent.memoryError⟩
          else ⟨false, false, false, 0, [], fun _ _ => ReadEvent.ok⟩,
          fun _ => "hh", fun p => p, fun p => p, fun _ _ => false, none, false⟩
        "r" (FSDir.mk "r" ["huge.txt"] []) "inclusion" false [".txt"] [] []
        ("out.txt") ⟨⟨32, []⟩, [], [], none, 0, none, 0, 0, 0⟩ 0).out = [] := by
  refine ⟨?_, by rfl, by rfl, by rfl⟩
  intro env path st out polls hex hrd hev hcan hcap
  have hstep := retry_step_memory env path out hev hcan
  unfold process_file
  dsimp only
  rw [hex, hrd]
  simp only [Bool.not_true, Bool.false_eq_true, if_false]
  rw [hcap]
  dsimp only
  rw [show CHUNK_SIZE + 2 = (CHUNK_SIZE + 1) + 1 from rfl]
  rw [hstep CHUNK_SIZE 0 st polls (CHUNK_SIZE + 1)]
  rw [show (max 1024 (CHUNK_SIZE / 2) == CHUNK_SIZE) = false from by decide]
  simp only [Bool.false_eq_true, if_false]
  rw [show max 1024 (CHUNK_SIZE / 2) = 4096 from by decide]
  rw [show CHUNK_SIZE + 1 = CHUNK_SIZE + 1 from rfl]
  rw [show (CHUNK_SIZE + 1 : Nat) = CHUNK_SIZE + 1 from rfl]
  rw [hstep 4096 1 _ (polls + 1) CHUNK_SIZE]
  rw [show (max 1024 (4096 / 2) == 4096) = false from by decide]
  simp only [Bool.false_eq_true, if_false]
  rw [show max 1024 (4096 / 2) = 2048 from by decide]
  rw [show (CHUNK_SIZE : Nat) = 8191 + 1 from by decide]
  rw [hstep 2048 2 _ (polls + 1 + 1) 8191]
  rw [show (max 1024 (2048 / 2) == 2048) = false from by decide]
  simp only [Bool.false_eq_true, if_false]
  rw [show max 1024 (2048 / 2) = 1024 from by decide]
  rw [show (8191 : Nat) = 8190 + 1 from by decide]
  rw [hstep 1024 3 _ (polls + 1 + 1 + 1) 8190]
  rw [show (max 1024 (1024 / 2) == 1024) = true from by decide]
  simp only [if_true]
  rw [List.take_length]

/-- Witness for C6: the concrete persistently failing file is skipped
with the three halving warnings and the final error report. -/
theorem C6_persistent_memory_pressure_skips_file_witness :
    process_file
        ⟨fun p => if p == "r/huge.txt" then
            ⟨true, true, true, 7, "payload".toList, fun _ _ => ReadEvent.memoryError⟩
          else ⟨false, false, false, 0, [], fun _ _ => ReadEvent.ok⟩,
          fun _ => "hh", fun p => p, fun p => p, fun _ _ => false, none, false⟩
        "r/huge.txt" ⟨⟨32, []⟩, [], [], none, 0, none, 0, 0, 0⟩ [] 0 =
      ⟨Except.error PfExc.skipped,
        enqueue_message (enqueue_message (enqueue_message (enqueue_message
          ⟨⟨32, []⟩, [], [], none, 0, none, 0, 0, 0⟩
          lvl_warning (Payload.text (msg_memory_pressure ("r/huge.txt") 4096)))
          lvl_warning (Payload.text (msg_memory_pressure ("r/huge.txt") 2048)))
          lvl_warning (Payload.text (msg_memory_pressure ("r/huge.txt") 1024)))
          lvl_error (Payload.text (msg_skipped_memory ("r/huge.txt"))),
        [], 4⟩ :=
  C6_persistent_memory_pressure_skips_file.1
    ⟨fun p => if p == "r/huge.txt" then
        ⟨true, true, true, 7, "payload".toList, fun _ _ => ReadEvent.memoryError⟩
      else ⟨false, false, false, 0, [], fun _ _ => ReadEvent.ok⟩,
      fun _ => "hh", fun p => p, fun p => p, fun _ _ => false, none, false⟩
    "r/huge.txt" ⟨⟨32, []⟩, [], [], none, 0, none, 0, 0, 0⟩ [] 0
    rfl rfl (fun _ _ => rfl) rfl rfl

/-- C4: on a run over three eligible files where the first two are
skipped (unreadable) and the third processes successfully, the progress
callback receives first arguments 0, 1, 2, 1: the processed branch
passes processed_count alone instead of the processed-or-skipped count,
so the counter regresses and is not monotonically non-decreasing. -/
theorem C4_progress_counter_regresses :
    (extract_files
        ⟨fun p =>
          if p == "r/a.txt" then ⟨true, true, false, 1, ['x'], fun _ _ => ReadEvent.ok⟩
          else if p == "r/b.txt" then
            ⟨true, true, false, 1, ['x'], fun _ _ => ReadEvent.ok⟩
          else if p == "r/c.txt" then
            ⟨true, true, true, 1, ['x'], fun _ _ => ReadEvent.ok⟩
          else ⟨false, false, false, 0, [], fun _ _ => ReadEvent.ok⟩,
          fun _ => "hh", fun p => p, fun p => p, fun _ _ => false, none, false⟩
        "r" (FSDir.mk "r" ["a.txt", "b.txt", "c.txt"] []) "inclusion" false
        [".txt"] [] [] ("out.txt") ⟨⟨64, []⟩, [], [], none, 0, none, 0, 0, 0⟩ 0).cbLog =
      [((0 : Int), (3 : Int)), (1, 3), (2, 3), (1, 3)]
    ∧ [((0 : Int), (3 : Int)), (1, 3), (2, 3), (1, 3)].map Prod.fst = [0, 1, 2, 1]
    ∧ ¬ ((2 : Int) ≤ 1) := by
  exact ⟨by rfl, by decide, by decide⟩

/-- C2 counterexample: a run whose only attempted file is a failing
specification file reports processed zero, skipped one, but a
determinate total of zero, violating processed + skipped less-or-equal
total. -/
theorem C2_spec_skip_breaks_invariant :
    ((extract_files
        ⟨fun p =>
          if p == "r/README.md" then
            ⟨true, true, false, 4, "spec".toList, fun _ _ => ReadEvent.ok⟩
          else ⟨false, false, false, 0, [], fun _ _ => ReadEvent.ok⟩,
          fun _ => "hh", fun p => p, fun p => p, fun _ _ => false, none, false⟩
        "r" (FSDir.mk "r" ["README.md"] []) "inclusion" false [".txt"] [] []
        ("out.txt") ⟨⟨64, []⟩, [], [], none, 0, none, 0, 0, 0⟩ 0).st.lastRunMetrics).map
        (fun m => (m.processed_files, m.skipped_files, m.total_files,
          m.total_files_known)) = some (0, 1, 0, true)
    ∧ ¬ ((0 : Int) + 1 ≤ 0) := by
  exact ⟨by rfl, by decide⟩

/-- Restoration never touches the stored run metrics. -/
theorem restoreMsgs_lastRunMetrics (msgs : List QMsg) : ∀ (st : ProcSt),
    (restoreMsgs st msgs).2.lastRunMetrics = st.lastRunMetrics := by
  induction msgs with
  | nil => intro st; rfl
  | cons mm rest ih =>
    intro st
    unfold restoreMsgs
    cases put_nowait st.chan mm with
    | none => rfl
    | some c =>
      dsimp only
      rw [ih]
      unfold record_queue_depth
      split <;> rfl

/-- Draining never touches the stored run metrics. -/
theorem drain_lastRunMetrics (st : ProcSt) (allow : Bool) :
    (drain_for_capacity st allow).2.lastRunMetrics = st.lastRunMetrics := by
  unfold drain_for_capacity
  dsimp only
  by_cases hemp : st.chan.buf.isEmpty = true
  · rw [if_pos hemp]
  · rw [if_neg hemp]
    cases hidx : List.findIdx? (fun m => m.level != lvl_state) st.chan.buf with
    | some i =>
      dsimp only
      rw [restoreMsgs_lastRunMetrics]
      rfl
    | none =>
      dsimp only
      cases allow with
      | false =>
        rw [if_pos (by decide)]
        dsimp only
        rw [restoreMsgs_lastRunMetrics]
      | true =>
        rw [if_neg (by decide)]
        dsimp only
        rw [restoreMsgs_lastRunMetrics]
        rfl

/-- The publish loop never touches the stored run metrics. -/
theorem enqueue_loop_lastRunMetrics :
    ∀ (fuel : Nat) (st : ProcSt) (level : String) (payload : Payload) (attempts : Nat),
      (enqueue_loop st level payload attempts fuel).lastRunMetrics =
        st.lastRunMetrics := by
  intro fuel
  induction fuel with
  | zero => intro st level payload attempts; rfl
  | succ fuel ih =>
    intro st level payload attempts
    unfold enqueue_loop
    cases put_nowait st.chan ⟨level, payload⟩ with
    | some c =>
      dsimp only
      unfold record_queue_depth
      split <;> rfl
    | none =>
      dsimp only
      split
      · rw [show (addDropped (drain_for_capacity st (level == lvl_state)).2).lastRunMetrics =
            (drain_for_capacity st (level == lvl_state)).2.lastRunMetrics from rfl]
        rw [drain_lastRunMetrics]
      · rw [ih]
        rw [drain_lastRunMetrics]

/-- Publishing a status message never touches the stored run metrics. -/
theorem enqueue_message_lastRunMetrics (st : ProcSt) (level : String)
    (payload : Payload) :
    (enqueue_message st level payload).lastRunMetrics = st.lastRunMetrics := by
  unfold enqueue_message
  rw [enqueue_loop_lastRunMetrics]

/-- Every attempted file of a completed traversal loop is counted exactly
once, as processed or as skipped. -/
theorem paths_loop_counts (env : Env) (total : Int) :
    ∀ (paths : List String) (pc sc : Nat) (cb : List (Int × Int)) (w : WSt)
      (pc2 sc2 : Nat) (cb2 : List (Int × Int)) (w2 : WSt),
      process_paths_loop env total paths pc sc cb w = Except.ok (pc2, sc2, cb2, w2) →
      pc2 + sc2 = pc + sc + paths.length := by
  intro paths
  induction paths with
  | nil =>
    intro pc sc cb w pc2 sc2 cb2 w2 h
    simp only [process_paths_loop, Except.ok.injEq, Prod.mk.injEq] at h
    obtain ⟨h1, h2, -⟩ := h
    subst h1
    subst h2
    simp
  | cons p rest ih =>
    intro pc sc cb w pc2 sc2 cb2 w2 h
    unfold process_paths_loop at h
    split at h
    · have := ih _ _ _ _ _ _ _ _ h
      simp only [List.length_cons]
      omega
    · exact absurd h (by simp)
    · have := ih _ _ _ _ _ _ _ _ h
      simp only [List.length_cons]
      omega
    · have := ih _ _ _ _ _ _ _ _ h
      simp only [List.length_cons]
      omega

/-- The skipped-specification count is handed through extract_main. -/
theorem extract_main_skippedSpecs (env : Env) (ofn : String) (total : Int)
    (paths : List String) (ss : Nat) (w : WSt) :
    (extract_main env ofn total paths ss w).skippedSpecs = ss := by
  unfold extract_main
  dsimp only
  rcases h : process_paths_loop env total paths 0 ss [((0 : Int), total)] w with
    ⟨cb2, w2⟩ | ⟨pc2, sc2, cb2, w2⟩
  · rfl
  · rfl

/-- Metrics of a completed extract_main run: processed plus skipped is
bounded by the reported total plus the skipped specifications. -/
theorem extract_main_metrics_bound (env : Env) (ofn : String) (total : Int)
    (paths : List String) (ss : Nat) (w : WSt) (m : RunMetrics)
    (hres : (extract_main env ofn total paths ss w).res = Except.ok ())
    (hm : (extract_main env ofn total paths ss w).st.lastRunMetrics = some m)
    (htot : total = (paths.length : Int) ∨ total = -1) :
    (m.processed_files : Int) + (m.skipped_files : Int) ≤ m.total_files + (ss : Int) := by
  unfold extract_main at hres hm
  dsimp only at hres hm
  rcases hloop : process_paths_loop env total paths 0 ss [((0 : Int), total)] w with
    ⟨cb2, w2⟩ | ⟨pc2, sc2, cb2, w2⟩
  · rw [hloop] at hres
    exact absurd hres (by simp)
  · rw [hloop] at hm
    dsimp only at hm
    rw [enqueue_message_lastRunMetrics] at hm
    dsimp only at hm
    have hcount := paths_loop_counts env total paths 0 ss _ w pc2 sc2 cb2 w2 hloop
    rcases htot with h | h
    · rw [h] at hm
      rw [if_pos (by exact Int.ofNat_nonneg paths.length)] at hm
      dsimp only at hm
      injection hm with hm2
      rw [← hm2]
      dsimp only
      rw [Int.toNat_ofNat]
      omega
    · rw [h] at hm
      rw [if_neg (by decide)] at hm
      dsimp only at hm
      injection hm with hm2
      rw [← hm2]
      dsimp only
      push_cast
      omega

/-- A completed extract_files run reaches extract_main with a total that
is either the eager path count or the indeterminate sentinel. -/
theorem extract_files_completed_shape (env : Env) (folder_path : String)
    (tree : FSDir) (mode : String) (include_hidden : Bool)
    (extensions exclude_files exclude_folders : List String)
    (output_file_name : String) (st0 : ProcSt) (polls : Nat)
    (hres : (extract_files env folder_path tree mode include_hidden extensions
        exclude_files exclude_folders output_file_name st0 polls).res = Except.ok ()) :
    ∃ (total : Int) (paths : List String) (ss : Nat) (w : WSt),
      extract_files env folder_path tree mode include_hidden extensions
          exclude_files exclude_folders output_file_name st0 polls =
        extract_main env output_file_name total paths ss w
      ∧ (total = (paths.length : Int) ∨ total = -1) := by
  unfold extract_files at hres ⊢
  dsimp only at hres ⊢
  rcases hspec : process_specifications env folder_path
      ⟨{ st0 with
          maxQueueDepth := st0.chan.buf.length
          lastRunMetrics := none
          droppedMessages := 0
          largeFileWarnings := 0 }, [], polls⟩ with w | ⟨ss, w⟩
  · rw [hspec] at hres
    exact absurd hres (by simp)
  · rw [hspec] at hres
    dsimp only at hres ⊢
    by_cases hmem : env.enumMemErr = true
    · rw [if_pos hmem] at hres ⊢
      rcases hiter : iter_eligible_file_paths env folder_path tree mode include_hidden
          extensions exclude_files exclude_folders (env.abspath output_file_name)
          (enqueue_message w.st lvl_warning (Payload.text msg_indeterminate)).processedFiles
          w.polls with p | ⟨paths, polls2⟩
      · rw [hiter] at hres
        exact absurd hres (by simp)
      · exact ⟨-1, paths, ss,
          ⟨enqueue_message w.st lvl_warning (Payload.text msg_indeterminate), w.out, polls2⟩,
          rfl, Or.inr rfl⟩
    · rw [if_neg hmem] at hres ⊢
      rcases hiter : iter_eligible_file_paths env folder_path tree mode include_hidden
          extensions exclude_files exclude_folders (env.abspath output_file_name)
          w.st.processedFiles w.polls with p | ⟨paths, polls2⟩
      · rw [hiter] at hres
        exact absurd hres (by simp)
      · exact ⟨(paths.length : Int), paths, ss, ⟨w.st, w.out, polls2⟩, rfl, Or.inl rfl⟩

/-- C2: for every completed run whose final metrics report a determinate
or indeterminate total, processed_files plus skipped_files is bounded by
total_files plus the number of specification files skipped in the
specification phase; the unamended bound without the specification-skip
term fails (see the counterexample), because specification-phase skips
are counted in skipped_files but never in total_files. -/
theorem C2_processed_skipped_bound (env : Env) (folder_path : String)
    (tree : FSDir) (mode : String) (include_hidden : Bool)
    (extensions exclude_files exclude_folders : List String)
    (output_file_name : String) (st0 : ProcSt) (polls : Nat) (m : RunMetrics)
    (hres : (extract_files env folder_path tree mode include_hidden extensions
        exclude_files exclude_folders output_file_name st0 polls).res = Except.ok ())
    (hm : (extract_files env folder_path tree mode include_hidden extensions
        exclude_files exclude_folders output_file_name st0 polls).st.lastRunMetrics =
      some m) :
    (m.processed_files : Int) + (m.skipped_files : Int) ≤
      m.total_files +
        ((extract_files env folder_path tree mode include_hidden extensions
            exclude_files exclude_folders output_file_name st0 polls).skippedSpecs : Int) := by
  obtain ⟨total, paths, ss, w, heq, htot⟩ :=
    extract_files_completed_shape env folder_path tree mode include_hidden extensions
      exclude_files exclude_folders output_file_name st0 polls hres
  rw [heq] at hres hm ⊢
  rw [extract_main_skippedSpecs]
  exact extract_main_metrics_bound env output_file_name total paths ss w m hres hm htot

/-- Witness for C2: a concrete completed run with one skipped file and
an exact total satisfies the amended bound. -/
theorem C2_processed_skipped_bound_witness :
    (0 : Int) + (1 : Int) ≤ (1 : Int) +
      ((extract_files
        ⟨fun p => if p == "r/huge.txt" then
            ⟨true, true, true, 7, "payload".toList, fun _ _ => ReadEvent.memoryError⟩
          else ⟨false, false, false, 0, [], fun _ _ => ReadEvent.ok⟩,
          fun _ => "hh", fun p => p, fun p => p, fun _ _ => false, none, false⟩
        "r" (FSDir.mk "r" ["huge.txt"] []) "inclusion" false [".txt"] [] []
        ("out.txt") ⟨⟨32, []⟩, [], [], none, 0, none, 0, 0, 0⟩ 0).skippedSpecs : Int) :=
  C2_processed_skipped_bound
    ⟨fun p => if p == "r/huge.txt" then
        ⟨true, true, true, 7, "payload".toList, fun _ _ => ReadEvent.memoryError⟩
      else ⟨false, false, false, 0, [], fun _ _ => ReadEvent.ok⟩,
      fun _ => "hh", fun p => p, fun p => p, fun _ _ => false, none, false⟩
    "r" (FSDir.mk "r" ["huge.txt"] []) "inclusion" false [".txt"] [] []
    ("out.txt") ⟨⟨32, []⟩, [], [], none, 0, none, 0, 0, 0⟩ 0
    ⟨0, 5, 1, 0, 1, true, 0, 0, none⟩ rfl rfl
